import Mathlib

/-!
Shallow embedding of the OMG language runtime (sentrychris/omglang,
`src/runtime`): the value model (`value.rs`), the error taxonomy
(`error.rs`), the builtin surface (`vm/builtins.rs`), the instruction
handlers (`vm.rs`, `vm/ops_arith.rs`, `vm/ops_struct.rs`,
`vm/ops_control.rs`) and the fetch–decode–execute driver with exception
unwinding (`vm.rs::run`).

Rust `Rc<RefCell<_>>` aggregates are modelled as indices into explicit
heaps (`Heap.lists`, `Heap.dicts`, `Heap.frozens`); `HashMap<String, V>`
is modelled as an association list whose `insert` replaces in place, so
key lookup agrees with the Rust map (iteration order of a Rust `HashMap`
is unspecified; the association-list order stands in for it, which is
only observable through `to_string` of dicts). Machine `i64` arithmetic
is modelled on `Int` with explicit wrapping where Rust release builds
wrap. Rust panics (RefCell double borrows, `unwrap` on empty stacks,
argument-count underflow in `CallValue`) are modelled as a distinct
`crashed` outcome, since they abort the process and are not catchable by
the VM exception machinery. The operating system is modelled by a
`World` value: file contents as byte lists, with a single stand-in
string for OS-supplied error text.
-/

namespace OMG

/-- Error categories from `error.rs::ErrorKind` (`repr(u8)` tags 0..5). -/
inductive ErrorKind where
  | generic
  | syntaxK
  | typeK
  | undefinedIdentK
  | valueK
  | moduleImportK
deriving DecidableEq, Repr

/-- Runtime errors from `error.rs::RuntimeError`. -/
inductive RuntimeError where
  | assertionError
  | frozenWriteError
  | indexError (msg : String)
  | keyError (key : String)
  | moduleImportError (msg : String)
  | syntaxError (msg : String)
  | typeError (msg : String)
  | undefinedIdentError (name : String)
  | valueError (msg : String)
  | zeroDivisionError
  | raised (msg : String)
  | vmInvariant (msg : String)
deriving DecidableEq, Repr

/-- Conversion `ErrorKind::into_runtime` from `error.rs`. -/
def ErrorKind.into_runtime : ErrorKind → String → RuntimeError
  | .generic, msg => .raised msg
  | .syntaxK, msg => .syntaxError msg
  | .typeK, msg => .typeError msg
  | .undefinedIdentK, msg => .undefinedIdentError msg
  | .valueK, msg => .valueError msg
  | .moduleImportK, msg => .moduleImportError msg

/-- Display form of a runtime error, from `impl fmt::Display for RuntimeError`. -/
def RuntimeError.display : RuntimeError → String
  | .assertionError => "AssertionError: assertion failed"
  | .frozenWriteError => "FrozenWriteError: Imported modules are read-only"
  | .indexError msg => "IndexError: " ++ msg
  | .keyError key => "KeyError: \"Key \x27" ++ key ++ "\x27 not found\""
  | .moduleImportError msg => "ModuleImportError: " ++ msg
  | .syntaxError msg => "SyntaxError: " ++ msg
  | .typeError msg => "TypeError: " ++ msg
  | .undefinedIdentError name => "UndefinedIdentError: " ++ name
  | .valueError msg => "ValueError: " ++ msg
  | .zeroDivisionError => "ZeroDivisionError: integer division or modulo by zero"
  | .raised msg => "RuntimeError: " ++ msg
  | .vmInvariant msg => "VmInvariant: " ++ msg

/-- Runtime values from `value.rs::Value`. The three aggregate variants hold
an index into the corresponding heap store, standing for the `Rc` pointer. -/
inductive Value where
  | int (i : Int)
  | str (s : String)
  | bool (b : Bool)
  | list (r : Nat)
  | dict (r : Nat)
  | frozenDict (r : Nat)
  | none
deriving DecidableEq, Repr

/-- Association list standing for `HashMap<String, Value>`. -/
abbrev Env := List (String × Value)

/-- Heap of shared aggregates: `Rc<RefCell<Vec<Value>>>` list cells,
`Rc<RefCell<HashMap<String, Value>>>` dict cells and `Rc<HashMap<String,
Value>>` frozen-dict cells, each addressed by allocation index. -/
structure Heap where
  lists : List (List Value)
  dicts : List Env
  frozens : List Env
deriving DecidableEq, Repr

/-- Lookup in an association list, as `HashMap::get`. -/
def assocLookup {α : Type} : List (String × α) → String → Option α
  | [], _ => Option.none
  | (k, v) :: rest, key => if k = key then some v else assocLookup rest key

/-- Insert into an association list, as `HashMap::insert`: replace the
binding in place when the key is present, append otherwise. -/
def assocInsert {α : Type} : List (String × α) → String → α → List (String × α)
  | [], key, v => [(key, v)]
  | (k, w) :: rest, key, v =>
      if k = key then (key, v) :: rest else (k, w) :: assocInsert rest key v

/-- Membership test, as `HashMap::contains_key`. -/
def assocContains {α : Type} (l : List (String × α)) (key : String) : Bool :=
  (assocLookup l key).isSome

/-- Removal, as `HashMap::remove` (returns the new map and whether a
binding was removed). -/
def assocRemove {α : Type} : List (String × α) → String → List (String × α) × Bool
  | [], _ => ([], false)
  | (k, v) :: rest, key =>
      if k = key then (rest, true)
      else
        let (r, b) := assocRemove rest key
        ((k, v) :: r, b)

/-- Wrap an unbounded integer to the two\x27s-complement `i64` range,
modelling Rust release-mode wrapping arithmetic. -/
def wrap64 (x : Int) : Int :=
  (x + 2 ^ 63) % 2 ^ 64 - 2 ^ 63

/-- Two\x27s-complement bit pattern of an `i64` as a natural number,
used for Rust `{:x}` / `{:b}` formatting of possibly negative values. -/
def toTwos64 (x : Int) : Nat :=
  (x % 2 ^ 64).toNat

/-- Integer coercion from `value.rs::Value::as_int`. Aggregate variants
coerce to their length, which requires the heap. -/
def Value.as_int (h : Heap) : Value → Except RuntimeError Int
  | .int i => .ok i
  | .str s =>
      match parseI64 s with
      | some v => .ok v
      | Option.none =>
          .error (.typeError ("Invalid literal for int(): \x27" ++ s ++ "\x27"))
  | .bool b => .ok (if b then 1 else 0)
  | .list r => .ok ((h.lists.getD r []).length : Int)
  | .dict r => .ok ((h.dicts.getD r []).length : Int)
  | .frozenDict r => .ok ((h.frozens.getD r []).length : Int)
  | .none => .ok 0
where
  /-- Model of Rust `str::parse::<i64>`: optional sign, one or more ASCII
  digits, result within the `i64` range. -/
  parseI64 (s : String) : Option Int :=
    match s.data with
    | [] => Option.none
    | c :: rest =>
        let (neg, ds) :=
          if c = '-' then (true, rest)
          else if c = '+' then (false, rest)
          else (false, c :: rest)
        match digits ds with
        | Option.none => Option.none
        | some n =>
            let v : Int := if neg then -(n : Int) else (n : Int)
            if -(2 ^ 63) ≤ v ∧ v ≤ 2 ^ 63 - 1 then some v else Option.none
  /-- Parse a non-empty run of ASCII digits into a natural number. -/
  digits : List Char → Option Nat
    | [] => Option.none
    | [c] => if c.isDigit then some (c.toNat - 48) else Option.none
    | c :: rest =>
        if c.isDigit then
          match digits rest with
          | some n => some ((c.toNat - 48) * 10 ^ rest.length + n)
          | Option.none => Option.none
        else Option.none

/-- Truthiness from `value.rs::Value::as_bool`. -/
def Value.as_bool (h : Heap) : Value → Bool
  | .bool b => b
  | .int i => i ≠ 0
  | .str s => s ≠ ""
  | .list r => (h.lists.getD r []).length ≠ 0
  | .dict r => (h.dicts.getD r []).length ≠ 0
  | .frozenDict r => (h.frozens.getD r []).length ≠ 0
  | .none => false

/-- Join strings with a separator, as `Vec::<String>::join`. -/
def joinSep (sep : String) : List String → String
  | [] => ""
  | [s] => s
  | s :: rest => s ++ sep ++ joinSep sep rest

/-- Pointer identity used by the stringifier\x27s seen-set: variant tag
(0 list, 1 dict, 2 frozen dict) paired with the heap index. -/
abbrev Ptr := Nat × Nat

/-- Fuelled model of the recursive `helper` inside `value.rs::to_string`:
cycle detection through a seen-set of aggregate identities, printing
`[...]` / `{...}` on revisits. The seen-set threads through sibling
elements (via the folds) exactly as the Rust `&mut HashSet` does. Fuel
only bounds the descent depth: every descent pushes a fresh aggregate
identity onto the seen-set, so `Value.to_string` below supplies enough
fuel for any heap. -/
def toStrFuel (h : Heap) : Nat → List Ptr → Value → String × List Ptr
  | 0, seen, _ => ("", seen)
  | _ + 1, seen, .int i => (toString i, seen)
  | _ + 1, seen, .str s => (s, seen)
  | _ + 1, seen, .bool b => (toString b, seen)
  | _ + 1, seen, .none => ("", seen)
  | f + 1, seen, .list r =>
      if seen.contains (0, r) then ("[...]", seen)
      else
        let (inner, seen1) := (h.lists.getD r []).foldl
          (fun acc x =>
            let (sx, seenx) := toStrFuel h f acc.2 x
            (acc.1 ++ [sx], seenx))
          (([] : List String), (0, r) :: seen)
        ("[" ++ joinSep ", " inner ++ "]", seen1)
  | f + 1, seen, .dict r =>
      if seen.contains (1, r) then ("\x7b...\x7d", seen)
      else
        let (inner, seen1) := (h.dicts.getD r []).foldl
          (fun acc kv =>
            let (sx, seenx) := toStrFuel h f acc.2 kv.2
            (acc.1 ++ [kv.1 ++ ": " ++ sx], seenx))
          (([] : List String), (1, r) :: seen)
        ("\x7b" ++ joinSep ", " inner ++ "\x7d", seen1)
  | f + 1, seen, .frozenDict r =>
      if seen.contains (2, r) then ("\x7b...\x7d", seen)
      else
        let (inner, seen1) := (h.frozens.getD r []).foldl
          (fun acc kv =>
            let (sx, seenx) := toStrFuel h f acc.2 kv.2
            (acc.1 ++ [kv.1 ++ ": " ++ sx], seenx))
          (([] : List String), (2, r) :: seen)
        ("\x7b" ++ joinSep ", " inner ++ "\x7d", seen1)

/-- Fuel bound that dominates any descent: every recursive step inserts a
fresh aggregate identity into the seen-set, so the depth never exceeds
the number of heap cells. -/
def Heap.fuel (h : Heap) : Nat :=
  h.lists.length + h.dicts.length + h.frozens.length + 1

/-- Stringification from `value.rs::Value::to_string`. -/
def Value.to_string (h : Heap) (v : Value) : String :=
  (toStrFuel h h.fuel [] v).1

/-- UTF-8 bytes of one character, modelling Rust string encoding. -/
def charUtf8 (c : Char) : List Nat :=
  let n := c.toNat
  if n < 0x80 then [n]
  else if n < 0x800 then [0xC0 + n / 64, 0x80 + n % 64]
  else if n < 0x10000 then
    [0xE0 + n / 4096, 0x80 + n / 64 % 64, 0x80 + n % 64]
  else
    [0xF0 + n / 262144, 0x80 + n / 4096 % 64, 0x80 + n / 64 % 64, 0x80 + n % 64]

/-- UTF-8 bytes of a string, modelling `str::as_bytes`. -/
def utf8Encode (s : String) : List Nat :=
  s.data.foldr (fun c acc => charUtf8 c ++ acc) []

/-- Continuation-byte test for the UTF-8 decoder. -/
def isCont (b : Nat) : Bool := 0x80 ≤ b ∧ b < 0xC0

/-- Strict UTF-8 decoding loop, structurally recursive on a fuel that
`utf8Decode` instantiates with the byte count (each step consumes at
least one byte, so the fuel never runs out). It models Rust
`String::from_utf8` validation: stray or missing continuation bytes,
overlong encodings, surrogates and code points above U+10FFFF are all
rejected. -/
def utf8DecodeAux : Nat → List Nat → Option (List Char)
  | _, [] => some []
  | 0, _ :: _ => Option.none
  | f + 1, b :: rest =>
      if b < 0x80 then (utf8DecodeAux f rest).map (Char.ofNat b :: ·)
      else if b < 0xC0 then Option.none
      else if b < 0xE0 then
        match rest with
        | b1 :: r =>
            if isCont b1 then
              let cp := (b - 0xC0) * 64 + (b1 - 0x80)
              if cp < 0x80 then Option.none
              else (utf8DecodeAux f r).map (Char.ofNat cp :: ·)
            else Option.none
        | [] => Option.none
      else if b < 0xF0 then
        match rest with
        | b1 :: b2 :: r =>
            if isCont b1 ∧ isCont b2 then
              let cp := (b - 0xE0) * 4096 + (b1 - 0x80) * 64 + (b2 - 0x80)
              if cp < 0x800 ∨ (0xD800 ≤ cp ∧ cp < 0xE000) then Option.none
              else (utf8DecodeAux f r).map (Char.ofNat cp :: ·)
            else Option.none
        | _ => Option.none
      else if b < 0xF8 then
        match rest with
        | b1 :: b2 :: b3 :: r =>
            if isCont b1 ∧ isCont b2 ∧ isCont b3 then
              let cp := (b - 0xF0) * 262144 + (b1 - 0x80) * 4096 +
                (b2 - 0x80) * 64 + (b3 - 0x80)
              if cp < 0x10000 ∨ 0x110000 ≤ cp then Option.none
              else (utf8DecodeAux f r).map (Char.ofNat cp :: ·)
            else Option.none
        | _ => Option.none
      else Option.none

/-- Strict UTF-8 decoder modelling Rust `String::from_utf8` validation. -/
def utf8Decode (l : List Nat) : Option (List Char) :=
  utf8DecodeAux l.length l

/-- Model of Rust `fs::read_to_string`: the raw bytes must exist and
decode as UTF-8. -/
def readToString (fs : List (String × List Nat)) (path : String) : Option String :=
  match assocLookup fs path with
  | some bytes => (utf8Decode bytes).map (fun cs => ⟨cs⟩)
  | Option.none => Option.none

/-- Lowercase hex digits of a natural number, as Rust `{:x}`. -/
def hexStr (n : Nat) : String :=
  if n = 0 then "0" else ⟨go n⟩
where
  /-- Accumulate hex digits most-significant first. -/
  go : Nat → List Char
    | 0 => []
    | n + 1 =>
        go ((n + 1) / 16) ++ [(Nat.digitChar ((n + 1) % 16))]

/-- Binary digits of a natural number, as Rust `{:b}`. -/
def binStr (n : Nat) : String :=
  if n = 0 then "0" else ⟨go n⟩
where
  /-- Accumulate binary digits most-significant first. -/
  go : Nat → List Char
    | 0 => []
    | n + 1 =>
        go ((n + 1) / 2) ++ [if (n + 1) % 2 = 1 then '1' else '0']

/-- Zero-pad a string on the left to the given width, as Rust
`{:0width$b}`. -/
def zeroPad (width : Nat) (s : String) : String :=
  if s.length < width then ⟨List.replicate (width - s.length) '0'⟩ ++ s else s

/-- Entry in the process-wide file-descriptor table of
`vm/builtins.rs` (`FileEntry` plus the open-mode capabilities implied by
the `OpenOptions` configuration). -/
structure FileEntry where
  binary : Bool
  canRead : Bool
  canWrite : Bool
  path : String
  pos : Nat
deriving DecidableEq, Repr

/-- Model of the operating system visible to the builtins: file contents
as byte lists keyed by path, the process-wide file-handle table with its
monotonic counter, and one stand-in string for OS-supplied error text. -/
structure World where
  fs : List (String × List Nat)
  handles : List (String × FileEntry)
  nextFd : Int
  osErr : String
deriving DecidableEq, Repr

/-- Normalize backslashes to forward slashes, as
`path.replace("\x5c\x5c", "/")` in the loaders. -/
def normSlashes (s : String) : String :=
  ⟨s.data.map (fun c => if c = '\\' then '/' else c)⟩

/-- Relative-path test of `PathBuf::is_relative` on Unix: the path does
not start with a slash. -/
def isRelativePath (s : String) : Bool :=
  match s.data with
  | '/' :: _ => false
  | _ => true

/-- Model of `PathBuf::join` for a relative right-hand side. -/
def pathJoin (base p : String) : String :=
  if base = "" then p
  else if base.data.getLast? = some '/' then base ++ p
  else base ++ "/" ++ p

/-- Path resolution from `vm/builtins.rs::resolve_path`: normalize
slashes and join a relative path onto the `current_dir` binding found in
the local environment or, failing that, the globals. -/
def resolve_path (path : String) (env globals : Env) : String :=
  let p := normSlashes path
  if isRelativePath p then
    match assocLookup env "current_dir" with
    | some (.str cur) => pathJoin (normSlashes cur) p
    | some _ => p
    | Option.none =>
        match assocLookup globals "current_dir" with
        | some (.str cur) => pathJoin (normSlashes cur) p
        | _ => p
  else p

/-- Result of a builtin call: a value (with possibly extended heap and
updated world), a runtime error, or a process abort. -/
inductive BRes where
  | ok : Value → Heap → World → BRes
  | err : RuntimeError → BRes
  | crashed : BRes
deriving DecidableEq, Repr

/-- Key for an integer file descriptor in the handle table. -/
def fdKey (i : Int) : String := toString i

/-- Body of the builtin dispatch `vm/builtins.rs::call_builtin`, with
the self-recursive dispatch of the meta builtin `call_builtin`
abstracted into `rec` so that `call_builtin` below can instantiate it
by structural recursion on fuel. -/
def callBuiltinF (h : Heap) (w : World)
    (rec : String → List Value → Env → Env → BRes)
    (name : String) (args : List Value) (env globals : Env) : BRes :=
    if name = "chr" then
      match args with
      | [.int i] => .ok (.str ⟨[Char.ofNat (i % 256).toNat]⟩) h w
      | _ => .err (.typeError "chr() expects one integer")
    else if name = "ascii" then
      match args with
      | [.str s] =>
          match s.data with
          | [c] => .ok (.int c.toNat) h w
          | _ => .err (.typeError "ascii() expects a single character (arity mismatch)")
      | _ => .err (.typeError "ascii() expects a single character (arity mismatch)")
    else if name = "hex" then
      match args with
      | [.int i] => .ok (.str (hexStr (toTwos64 i))) h w
      | _ => .err (.typeError "hex() expects one integer (arity mismatch)")
    else if name = "binary" then
      match args with
      | [.int n] => .ok (.str (binStr (toTwos64 n))) h w
      | [.int n, .int width] =>
          if width ≤ 0 then .err (.valueError "binary() width must be positive")
          else
            .ok (.str (zeroPad width.toNat (binStr (toTwos64 n % 2 ^ width.toNat)))) h w
      | _ => .err (.typeError "binary() expects one or two integers (arity mismatch)")
    else if name = "length" then
      match args with
      | [.list r] => .ok (.int (h.lists.getD r []).length) h w
      | [.str s] => .ok (.int s.data.length) h w
      | [_] => .err (.typeError "length() expects list or string (type mismatch)")
      | _ => .err (.typeError "length() expects one positional argument (arity mismatch)")
    else if name = "freeze" then
      match args with
      | [.dict r] =>
          .ok (.frozenDict h.frozens.length)
            { h with frozens := h.frozens ++ [h.dicts.getD r []] } w
      | [.frozenDict r] => .ok (.frozenDict r) h w
      | _ => .err (.typeError "freeze() expects a dict (type mismatch)")
    else if name = "panic" then
      match args with
      | [.str msg] => .err (.raised msg)
      | _ => .err (.typeError "panic() expects a string (type mismatch)")
    else if name = "raise" then
      match args with
      | [.str msg] => .err (.raised msg)
      | _ => .err (.typeError "raise() expects a string (type mismatch)")
    else if name = "read_file" then
      match args with
      | [.str path] =>
          let p := resolve_path path env globals
          match readToString w.fs p with
          | some content => .ok (.str content) h w
          | Option.none =>
              .err (.moduleImportError
                ("failed to read \x27" ++ p ++ "\x27: " ++ w.osErr))
      | _ => .err (.typeError "read_file() expects a file path")
    else if name = "file_open" then
      match args with
      | [.str path, .str mode] =>
          let p := resolve_path path env globals
          let binary := mode.data.contains 'b'
          if mode = "r" ∨ mode = "rb" then
            match assocLookup w.fs p with
            | some _ =>
                let fd := w.nextFd
                .ok (.int fd) h
                  { w with
                    handles := assocInsert w.handles (fdKey fd)
                      { binary, canRead := true, canWrite := false, path := p, pos := 0 }
                    nextFd := w.nextFd + 1 }
            | Option.none =>
                .err (.valueError ("cannot open \x27" ++ p ++ "\x27: " ++ w.osErr))
          else if mode = "w" ∨ mode = "wb" then
            let fd := w.nextFd
            .ok (.int fd) h
              { w with
                fs := assocInsert w.fs p []
                handles := assocInsert w.handles (fdKey fd)
                  { binary, canRead := false, canWrite := true, path := p, pos := 0 }
                nextFd := w.nextFd + 1 }
          else if mode = "a" ∨ mode = "ab" then
            let fd := w.nextFd
            let existing := (assocLookup w.fs p).getD []
            .ok (.int fd) h
              { w with
                fs := assocInsert w.fs p existing
                handles := assocInsert w.handles (fdKey fd)
                  { binary, canRead := false, canWrite := true, path := p, pos := 0 }
                nextFd := w.nextFd + 1 }
          else .err (.valueError "invalid file mode")
      | _ => .err (.typeError "file_open() expects path and mode")
    else if name = "file_read" then
      match args with
      | [.int handle] =>
          match assocLookup w.handles (fdKey handle) with
          | some entry =>
              if ¬ entry.canRead then .err (.valueError w.osErr)
              else
                let bytes := ((assocLookup w.fs entry.path).getD []).drop entry.pos
                let w1 :=
                  { w with
                    handles := assocInsert w.handles (fdKey handle)
                      { entry with pos := entry.pos + bytes.length } }
                if entry.binary then
                  .ok (.list h.lists.length)
                    { h with lists := h.lists ++ [bytes.map (fun b => .int b)] } w1
                else
                  match utf8Decode bytes with
                  | some cs => .ok (.str ⟨cs⟩) h w1
                  | Option.none => .err (.valueError w.osErr)
          | Option.none => .err (.valueError "invalid file handle")
      | _ => .err (.typeError "file_read() expects a handle")
    else if name = "file_write" then
      match args with
      | [.int handle, .str data] =>
          match assocLookup w.handles (fdKey handle) with
          | some entry =>
              if entry.binary then
                .err (.typeError "file_write() binary handle expects list")
              else if ¬ entry.canWrite then .err (.valueError w.osErr)
              else
                let bytes := utf8Encode data
                let existing := (assocLookup w.fs entry.path).getD []
                .ok (.int bytes.length) h
                  { w with fs := assocInsert w.fs entry.path (existing ++ bytes) }
          | Option.none => .err (.valueError "invalid file handle")
      | [.int handle, .list r] =>
          match assocLookup w.handles (fdKey handle) with
          | some entry =>
              if ¬ entry.binary then
                .err (.typeError "file_write() text handle expects string")
              else
                match packBytes (h.lists.getD r []) with
                | .error e => .err e
                | .ok bytes =>
                    if ¬ entry.canWrite then .err (.valueError w.osErr)
                    else
                      let existing := (assocLookup w.fs entry.path).getD []
                      .ok (.int bytes.length) h
                        { w with fs := assocInsert w.fs entry.path (existing ++ bytes) }
          | Option.none => .err (.valueError "invalid file handle")
      | _ => .err (.typeError "file_write() expects handle and data")
    else if name = "file_close" then
      match args with
      | [.int handle] =>
          match assocRemove w.handles (fdKey handle) with
          | (rest, true) => .ok .none h { w with handles := rest }
          | (_, false) => .err (.valueError "invalid file handle")
      | _ => .err (.typeError "file_close() expects handle")
    else if name = "file_exists" then
      match args with
      | [.str path] =>
          .ok (.bool (assocLookup w.fs (resolve_path path env globals)).isSome) h w
      | _ => .err (.typeError "file_exists() expects a path")
    else if name = "call_builtin" then
      match args with
      | [.str inner, .list r] => rec inner (h.lists.getD r []) env globals
      | _ => .err (.typeError "call_builtin() expects a name and argument list")
    else .err (.typeError ("unknown builtin: " ++ name))
where
  /-- Validate and pack a list of `Int` byte values 0..255, as the
  binary branch of `file_write`. -/
  packBytes : List Value → Except RuntimeError (List Nat)
    | [] => .ok []
    | .int i :: rest =>
        if 0 ≤ i ∧ i ≤ 255 then
          match packBytes rest with
          | .ok bs => .ok (i.toNat :: bs)
          | .error e => .error e
        else .error (.typeError "file_write() expects bytes 0-255")
    | _ :: _ => .error (.typeError "file_write() expects bytes 0-255")

/-- Builtin dispatch from `vm/builtins.rs::call_builtin`. The fuel
parameter bounds the nesting depth of the meta builtin `call_builtin`;
a terminating Rust execution descends through pairwise-distinct list
cells, so one more than the number of list cells always suffices, and
fuel exhaustion corresponds to the unbounded recursion (stack overflow)
the Rust code would hit on a self-referential argument list. -/
def call_builtin (h : Heap) (w : World) :
    Nat → String → List Value → Env → Env → BRes
  | 0 => callBuiltinF h w (fun _ _ _ _ => BRes.crashed)
  | Nat.succ f => callBuiltinF h w (call_builtin h w f)

/-- Compiled function from `bytecode.rs::Function`. -/
structure Function where
  params : List String
  address : Nat
deriving DecidableEq, Repr

/-- Instruction set from `bytecode.rs::Instr`. -/
inductive Instr where
  | PushInt (v : Int)
  | PushStr (s : String)
  | PushBool (b : Bool)
  | BuildList (n : Nat)
  | BuildDict (n : Nat)
  | Load (name : String)
  | Store (name : String)
  | Add | Sub | Mul | Div | Mod
  | Eq | Ne | Lt | Le | Gt | Ge
  | BAnd | BOr | BXor | Shl | Shr
  | And | Or | Not | Neg
  | Index | Slice
  | Jump (target : Nat)
  | JumpIfFalse (target : Nat)
  | Call (name : String)
  | TailCall (name : String)
  | CallBuiltin (name : String) (argc : Nat)
  | Pop | PushNone | Ret | Emit | Halt
  | StoreIndex
  | Attr (attr : String)
  | StoreAttr (attr : String)
  | Assert
  | CallValue (argc : Nat)
  | SetupExcept (target : Nat)
  | PopBlock
  | Raise (kind : ErrorKind)
deriving DecidableEq, Repr

/-- Protected-region descriptor from `vm.rs::Block`. -/
structure Block where
  handler : Nat
  stackSize : Nat
  envDepth : Nat
  retDepth : Nat
deriving DecidableEq, Repr

/-- Mutable machine state of `vm.rs::run`: operand stack (head is the
top), current frame environment, globals, the parallel environment and
return stacks (heads are the most recent frames), program counter,
protected-block stack, the aggregate heap, the modelled OS world, and
the text delivered through `Emit`. -/
structure VMState where
  stack : List Value
  env : Env
  globals : Env
  envStack : List Env
  retStack : List Nat
  pc : Nat
  blockStack : List Block
  heap : Heap
  world : World
  output : List String
deriving DecidableEq, Repr

/-- Immutable run context: decoded instruction stream and function table. -/
structure Ctx where
  code : List Instr
  funcs : List (String × Function)
deriving DecidableEq, Repr

/-- Outcome of one instruction handler: updated state, a runtime error
together with the partially updated state at the point of failure, or a
process abort (a Rust panic). -/
inductive Res where
  | ok : VMState → Res
  | err : RuntimeError → VMState → Res
  | crashed : Res
deriving DecidableEq, Repr

/-- Exception-monad form used while popping and coercing operands. -/
abbrev Exc (α : Type) := Except (RuntimeError × VMState) α

/-- Underflow-checked pop from `vm.rs::pop`. -/
def pop1 (s : VMState) : Exc (Value × VMState) :=
  match s.stack with
  | [] => .error (.vmInvariant "stack underflow", s)
  | v :: rest => .ok (v, { s with stack := rest })

/-- Repeated pop collecting values in pop order (topmost first), as the
`for _ in 0..n` pop loops. -/
def popN : Nat → VMState → Exc (List Value × VMState)
  | 0, s => .ok ([], s)
  | n + 1, s => do
      let (v, s) ← pop1 s
      let (vs, s) ← popN n s
      .ok (v :: vs, s)

/-- Coerce with `as_int`, keeping the state for the error path. -/
def asIntE (s : VMState) (v : Value) : Exc (Int × VMState) :=
  match v.as_int s.heap with
  | .ok i => .ok (i, s)
  | .error e => .error (e, s)

/-- Push a value. -/
def push (s : VMState) (v : Value) : VMState :=
  { s with stack := v :: s.stack }

/-- Collapse the exception monad into a handler result. -/
def toRes : Exc VMState → Res
  | .ok s => .ok s
  | .error (e, s) => .err e s

/-- Addition from `vm/ops_arith.rs::handle_add` (`vm.rs` has the same
body): string concatenation, string coercion of the other side, in-place
extension of the left list cell, otherwise integer addition. Extending a
list with itself mutably and immutably borrows the same `RefCell` at
once, which panics in Rust; that case is `crashed`. -/
def handle_add (s : VMState) : Res :=
  match pop1 s with
  | .error (e, s1) => .err e s1
  | .ok (b, s1) =>
      match pop1 s1 with
      | .error (e, s2) => .err e s2
      | .ok (a, s2) =>
          match a, b with
          | .str sa, .str sb => .ok (push s2 (.str (sa ++ sb)))
          | .str sa, v => .ok (push s2 (.str (sa ++ v.to_string s2.heap)))
          | v, .str sb => .ok (push s2 (.str (v.to_string s2.heap ++ sb)))
          | .list ra, .list rb =>
              if ra = rb then .crashed
              else
                let la := s2.heap.lists.getD ra []
                let lb := s2.heap.lists.getD rb []
                .ok (push
                  { s2 with heap :=
                    { s2.heap with lists := s2.heap.lists.set ra (la ++ lb) } }
                  (.list ra))
          | a, b =>
              toRes do
                let (ai, s3) ← asIntE s2 a
                let (bi, s3) ← asIntE s3 b
                .ok (push s3 (.int (wrap64 (ai + bi))))

/-- Subtraction (integer, wrapping as a Rust release build). -/
def handle_sub (s : VMState) : Res := toRes do
  let (b, s) ← pop1 s
  let (bi, s) ← asIntE s b
  let (a, s) ← pop1 s
  let (ai, s) ← asIntE s a
  .ok (push s (.int (wrap64 (ai - bi))))

/-- Multiplication via `checked_mul`, substituting 0 on overflow. -/
def handle_mul (s : VMState) : Res := toRes do
  let (b, s) ← pop1 s
  let (bi, s) ← asIntE s b
  let (a, s) ← pop1 s
  let (ai, s) ← asIntE s a
  let prod := ai * bi
  .ok (push s (.int (if -(2 ^ 63) ≤ prod ∧ prod ≤ 2 ^ 63 - 1 then prod else 0)))

/-- Integer division from `handle_div`: the divisor is popped and tested
first, division truncates toward zero, and `i64::MIN / -1` is the Rust
division-overflow panic. -/
def handle_div (s : VMState) : Res :=
  match (do
    let (b, s) ← pop1 s
    let (bi, s) ← asIntE s b
    .ok (bi, s) : Exc (Int × VMState)) with
  | .error (e, s1) => .err e s1
  | .ok (bi, s1) =>
      if bi = 0 then .err .zeroDivisionError s1
      else
        match (do
          let (a, s2) ← pop1 s1
          let (ai, s2) ← asIntE s2 a
          .ok (ai, s2) : Exc (Int × VMState)) with
        | .error (e, s2) => .err e s2
        | .ok (ai, s2) =>
            if ai = -(2 ^ 63) ∧ bi = -1 then .crashed
            else .ok (push s2 (.int (ai.tdiv bi)))

/-- Integer modulo from `handle_mod`, with the same zero-divisor check
and overflow panic as division. -/
def handle_mod (s : VMState) : Res :=
  match (do
    let (b, s) ← pop1 s
    let (bi, s) ← asIntE s b
    .ok (bi, s) : Exc (Int × VMState)) with
  | .error (e, s1) => .err e s1
  | .ok (bi, s1) =>
      if bi = 0 then .err .zeroDivisionError s1
      else
        match (do
          let (a, s2) ← pop1 s1
          let (ai, s2) ← asIntE s2 a
          .ok (ai, s2) : Exc (Int × VMState)) with
        | .error (e, s2) => .err e s2
        | .ok (ai, s2) =>
            if ai = -(2 ^ 63) ∧ bi = -1 then .crashed
            else .ok (push s2 (.int (ai.tmod bi)))

/-- Equality from `handle_eq`: compares stringified forms. -/
def handle_eq (s : VMState) : Res := toRes do
  let (b, s) ← pop1 s
  let (a, s) ← pop1 s
  .ok (push s (.bool (a.to_string s.heap == b.to_string s.heap)))

/-- Inequality from `handle_ne`: compares stringified forms. -/
def handle_ne (s : VMState) : Res := toRes do
  let (b, s) ← pop1 s
  let (a, s) ← pop1 s
  .ok (push s (.bool (a.to_string s.heap != b.to_string s.heap)))

/-- Comparison skeleton shared by `handle_lt/le/gt/ge`: lexicographic on
two strings, otherwise integer comparison of the coercions. -/
def handle_cmp (fs : String → String → Bool) (fi : Int → Int → Bool)
    (s : VMState) : Res := toRes do
  let (b, s) ← pop1 s
  let (a, s) ← pop1 s
  match a, b with
  | .str sa, .str sb => .ok (push s (.bool (fs sa sb)))
  | _, _ => do
      let (ai, s) ← asIntE s a
      let (bi, s) ← asIntE s b
      .ok (push s (.bool (fi ai bi)))

/-- Bitwise/shift skeleton for `handle_band/bor/bxor`. -/
def handle_bits (f : Int → Int → Int) (s : VMState) : Res := toRes do
  let (b, s) ← pop1 s
  let (bi, s) ← asIntE s b
  let (a, s) ← pop1 s
  let (ai, s) ← asIntE s a
  .ok (push s (.int (f ai bi)))

/-- Left shift: the right operand is cast to `u32` and the shift amount
is masked to 0..63 as in a Rust release build. -/
def shl64 (a b : Int) : Int := wrap64 (a * 2 ^ ((b % 2 ^ 32).toNat % 64))

/-- Arithmetic right shift under the same amount masking. -/
def shr64 (a b : Int) : Int := Int.fdiv a (2 ^ ((b % 2 ^ 32).toNat % 64))

/-- Boolean skeleton for `handle_and/or` over `as_bool`. -/
def handle_boolop (f : Bool → Bool → Bool) (s : VMState) : Res := toRes do
  let (b, s) ← pop1 s
  let bb := b.as_bool s.heap
  let (a, s) ← pop1 s
  let ab := a.as_bool s.heap
  .ok (push s (.bool (f ab bb)))

/-- Bitwise NOT from `handle_not`. -/
def handle_not (s : VMState) : Res := toRes do
  let (v, s) ← pop1 s
  let (vi, s) ← asIntE s v
  .ok (push s (.int (-vi - 1)))

/-- Unary negation from `handle_neg` (wrapping at `i64::MIN`). -/
def handle_neg (s : VMState) : Res := toRes do
  let (v, s) ← pop1 s
  let (vi, s) ← asIntE s v
  .ok (push s (.int (wrap64 (-vi))))

/-- Indexing from `handle_index` / the `Instr::Index` arm of `vm.rs`. -/
def handle_index (s : VMState) : Res := toRes do
  let (idx, s) ← pop1 s
  let (base, s) ← pop1 s
  match base, idx with
  | .list r, .int i =>
      if i < 0 then .error (.indexError "List index out of bounds!", s)
      else
        let l := s.heap.lists.getD r []
        match l.get? i.toNat with
        | some v => .ok (push s v)
        | Option.none => .error (.indexError "List index out of bounds!", s)
  | .dict r, .str k =>
      match assocLookup (s.heap.dicts.getD r []) k with
      | some v => .ok (push s v)
      | Option.none => .error (.keyError k, s)
  | .dict r, .int i =>
      let key := toString i
      match assocLookup (s.heap.dicts.getD r []) key with
      | some v => .ok (push s v)
      | Option.none => .error (.keyError key, s)
  | .frozenDict r, .str k =>
      match assocLookup (s.heap.frozens.getD r []) k with
      | some v => .ok (push s v)
      | Option.none => .error (.keyError k, s)
  | .frozenDict r, .int i =>
      let key := toString i
      match assocLookup (s.heap.frozens.getD r []) key with
      | some v => .ok (push s v)
      | Option.none => .error (.keyError key, s)
  | .str str, .int i =>
      if i < 0 then .error (.indexError "String index out of bounds!", s)
      else
        match str.data.get? i.toNat with
        | some c => .ok (push s (.str ⟨[c]⟩))
        | Option.none => .error (.indexError "String index out of bounds!", s)
  | other, _ =>
      .error (.typeError (other.to_string s.heap ++ " is not indexable"), s)

/-- Slicing from `handle_slice`: pops end, start, base; coerces the
start before examining the base; bounds-checks only list and string
bases; any other base pushes `Int(0)`. A sliced list is a fresh cell
(`to_vec`). -/
def handle_slice (s : VMState) : Res := toRes do
  let (end_val, s) ← pop1 s
  let (start_val, s) ← pop1 s
  let (base, s) ← pop1 s
  let (start_i64, s) ← asIntE s start_val
  match base with
  | .list r =>
      let l := s.heap.lists.getD r []
      let len := l.length
      if start_i64 < 0 then
        .error (.indexError "Slice indices out of bounds!", s)
      else do
        let (end_i64, s) ←
          match end_val with
          | .none => (.ok ((len : Int), s) : Exc (Int × VMState))
          | v => asIntE s v
        if end_i64 < 0 then
          .error (.indexError "Slice indices out of bounds!", s)
        else if start_i64.toNat > end_i64.toNat ∨ end_i64.toNat > len then
          .error (.indexError "Slice indices out of bounds!", s)
        else
          let cell := (l.take end_i64.toNat).drop start_i64.toNat
          .ok (push
            { s with heap := { s.heap with lists := s.heap.lists ++ [cell] } }
            (.list s.heap.lists.length))
  | .str str =>
      let chars := str.data
      let len := chars.length
      if start_i64 < 0 then
        .error (.indexError "Slice indices out of bounds!", s)
      else do
        let (end_i64, s) ←
          match end_val with
          | .none => (.ok ((len : Int), s) : Exc (Int × VMState))
          | v => asIntE s v
        if end_i64 < 0 then
          .error (.indexError "Slice indices out of bounds!", s)
        else if start_i64.toNat > end_i64.toNat ∨ end_i64.toNat > len then
          .error (.indexError "Slice indices out of bounds!", s)
        else
          .ok (push s (.str ⟨(chars.take end_i64.toNat).drop start_i64.toNat⟩))
  | _ => .ok (push s (.int 0))

/-- Indexed store from `handle_store_index`: lists auto-grow with
`Int(0)` padding, dict keys accept strings or stringified integers,
frozen dicts reject the write, and every other base/index combination is
a silent no-op. A negative list index becomes a huge `usize`, making
`Vec::resize` abort the process. -/
def handle_store_index (s : VMState) : Res :=
  match s.stack with
  | val :: idx :: base :: rest =>
      let s1 := { s with stack := rest }
      match base, idx with
      | .list r, .int i =>
          if i < 0 then .crashed
          else
            let l := s1.heap.lists.getD r []
            let padded :=
              if i.toNat ≥ l.length then
                l ++ List.replicate (i.toNat + 1 - l.length) (.int 0)
              else l
            .ok { s1 with heap :=
              { s1.heap with lists := s1.heap.lists.set r (padded.set i.toNat val) } }
      | .dict r, .str k =>
          .ok { s1 with heap :=
            { s1.heap with dicts :=
              s1.heap.dicts.set r (assocInsert (s1.heap.dicts.getD r []) k val) } }
      | .dict r, .int i =>
          let d := assocInsert (s1.heap.dicts.getD r []) (toString i) val
          .ok { s1 with heap := { s1.heap with dicts := s1.heap.dicts.set r d } }
      | .frozenDict _, _ => .err .frozenWriteError s1
      | _, _ => .ok s1
  | _ :: _ :: [] => .err (.vmInvariant "stack underflow") { s with stack := [] }
  | _ :: [] => .err (.vmInvariant "stack underflow") { s with stack := [] }
  | [] => .err (.vmInvariant "stack underflow") s

/-- Attribute read from `handle_attr`: dict-like bases only. -/
def handle_attr (attr : String) (s : VMState) : Res := toRes do
  let (base, s) ← pop1 s
  match base with
  | .dict r =>
      match assocLookup (s.heap.dicts.getD r []) attr with
      | some v => .ok (push s v)
      | Option.none => .error (.keyError attr, s)
  | .frozenDict r =>
      match assocLookup (s.heap.frozens.getD r []) attr with
      | some v => .ok (push s v)
      | Option.none => .error (.keyError attr, s)
  | other =>
      .error (.typeError
        (other.to_string s.heap ++ " has no attribute \x27" ++ attr ++ "\x27"), s)

/-- Attribute store from `handle_store_attr`: writes mutable dicts,
rejects frozen dicts, and silently ignores every other base. -/
def handle_store_attr (attr : String) (s : VMState) : Res :=
  match s.stack with
  | val :: base :: rest =>
      let s1 := { s with stack := rest }
      match base with
      | .dict r =>
          .ok { s1 with heap :=
            { s1.heap with dicts :=
              s1.heap.dicts.set r (assocInsert (s1.heap.dicts.getD r []) attr val) } }
      | .frozenDict _ => .err .frozenWriteError s1
      | _ => .ok s1
  | _ :: [] => .err (.vmInvariant "stack underflow") { s with stack := [] }
  | [] => .err (.vmInvariant "stack underflow") s

/-- Assertion from `handle_assert`. -/
def handle_assert (s : VMState) : Res := toRes do
  let (cond, s) ← pop1 s
  if cond.as_bool s.heap then .ok s else .error (.assertionError, s)

/-- Dictionary-building pop loop of `handle_build_dict`: each iteration
pops a value, then its key (stringified), and inserts. The pairs pushed
last are therefore inserted first, and a later insert of the same key
replaces them. -/
def buildDictLoop : Nat → VMState → Env → Exc (Env × VMState)
  | 0, s, m => .ok (m, s)
  | n + 1, s, m => do
      let (val, s) ← pop1 s
      let (key, s) ← pop1 s
      buildDictLoop n s (assocInsert m (key.to_string s.heap) val)

/-- List building from `handle_build_list`: pop `n`, reverse, allocate a
fresh shared cell. -/
def handle_build_list (n : Nat) (s : VMState) : Res := toRes do
  let (elements, s) ← popN n s
  .ok (push
    { s with heap := { s.heap with lists := s.heap.lists ++ [elements.reverse] } }
    (.list s.heap.lists.length))

/-- Dict building from `handle_build_dict`. -/
def handle_build_dict (n : Nat) (s : VMState) : Res := toRes do
  let (m, s) ← buildDictLoop n s []
  .ok (push
    { s with heap := { s.heap with dicts := s.heap.dicts ++ [m] } }
    (.dict s.heap.dicts.length))

/-- Result of executing one instruction: new state plus the
`advance_pc` flag, an error with the state at the failure point, or a
process abort. -/
inductive StepRes where
  | ok : VMState → Bool → StepRes
  | err : RuntimeError → VMState → StepRes
  | crashed : StepRes
deriving DecidableEq, Repr

/-- Lift a pc-neutral handler result (the driver will advance). -/
def wrapRes : Res → StepRes
  | .ok s => .ok s true
  | .err e s => .err e s
  | .crashed => .crashed

/-- Parameter binding loop shared by `handle_call` and
`handle_tail_call`: parameters are taken in reverse declaration order,
each popping one argument off the operand stack. -/
def bindParams : List String → Env → VMState → Exc (Env × VMState)
  | [], acc, s => .ok (acc, s)
  | p :: ps, acc, s => do
      let (arg, s) ← pop1 s
      bindParams ps (assocInsert acc p arg) s

/-- Direct call from `handle_call` (`Instr::Call` in `vm.rs`): bind
parameters, push the current frame onto both stacks, jump to the entry. -/
def handle_call (funcs : List (String × Function)) (name : String)
    (s : VMState) : StepRes :=
  match assocLookup funcs name with
  | some func =>
      match bindParams func.params.reverse [] s with
      | .error (e, s1) => .err e s1
      | .ok (newEnv, s1) =>
          .ok { s1 with
            envStack := s1.env :: s1.envStack
            retStack := (s1.pc + 1) :: s1.retStack
            env := newEnv
            pc := func.address } false
  | Option.none => .err (.undefinedIdentError name) s

/-- Tail call from `handle_tail_call`: same binding, but the current
frame is reused — neither the environment stack nor the return stack is
pushed. -/
def handle_tail_call (funcs : List (String × Function)) (name : String)
    (s : VMState) : StepRes :=
  match assocLookup funcs name with
  | some func =>
      match bindParams func.params.reverse [] s with
      | .error (e, s1) => .err e s1
      | .ok (newEnv, s1) => .ok { s1 with env := newEnv, pc := func.address } false
  | Option.none => .err (.undefinedIdentError name) s

/-- Argument binding of `handle_call_value`: parameters in reverse
declaration order each take `args_vec.pop().unwrap()`, the last argument
first; an exhausted vector is an `unwrap` panic. The list here is in pop
order (last argument first), so `pop()` is its head. Leftover arguments
are dropped. -/
def bindFromVec : List String → List Value → Env → Option Env
  | [], _, acc => some acc
  | _ :: _, [], _ => Option.none
  | p :: ps, a :: rest, acc => bindFromVec ps rest (assocInsert acc p a)

/-- First-class call from `handle_call_value` (`Instr::CallValue`):
pop `argc` arguments, then the callee, which must be a string naming a
function. -/
def handle_call_value (funcs : List (String × Function)) (argc : Nat)
    (s : VMState) : StepRes :=
  match popN argc s with
  | .error (e, s1) => .err e s1
  | .ok (argsPopOrder, s1) =>
      match pop1 s1 with
      | .error (e, s2) => .err e s2
      | .ok (funcVal, s2) =>
          match funcVal with
          | .str name =>
              match assocLookup funcs name with
              | some func =>
                  match bindFromVec func.params.reverse argsPopOrder [] with
                  | some newEnv =>
                      .ok { s2 with
                        envStack := s2.env :: s2.envStack
                        retStack := (s2.pc + 1) :: s2.retStack
                        env := newEnv
                        pc := func.address } false
                  | Option.none => .crashed
              | Option.none => .err (.undefinedIdentError name) s2
          | _ => .err (.typeError "Call value expects function name") s2

/-- Return from `handle_ret`: the return value defaults to `Int(0)` on
an empty operand stack, while `ret_stack.pop().unwrap()` and
`env_stack.pop().unwrap()` panic when their stack is empty. -/
def handle_ret (s : VMState) : StepRes :=
  match s.retStack, s.envStack with
  | rpc :: rrest, e :: erest =>
      let (retVal, stack1) :=
        match s.stack with
        | [] => ((.int 0 : Value), ([] : List Value))
        | v :: r => (v, r)
      .ok { s with
        stack := retVal :: stack1
        pc := rpc
        env := e
        envStack := erest
        retStack := rrest } false
  | _, _ => .crashed

/-- Builtin call from `handle_call_builtin` (`Instr::CallBuiltin`): pop
`argc` arguments, restore source order, dispatch, push the result. -/
def handle_call_builtin (name : String) (argc : Nat) (s : VMState) : StepRes :=
  match popN argc s with
  | .error (e, s1) => .err e s1
  | .ok (argsPopOrder, s1) =>
      match call_builtin s1.heap s1.world (s1.heap.lists.length + 1) name
        argsPopOrder.reverse s1.env s1.globals with
      | .ok v h w => .ok (push { s1 with heap := h, world := w } v) true
      | .err e => .err e s1
      | .crashed => .crashed

/-- Raise from `handle_raise`: pop the message (stringified) and fail
with the kind\x27s runtime error; an empty stack is a `VmInvariant`. -/
def handle_raise (kind : ErrorKind) (s : VMState) : StepRes :=
  match s.stack with
  | [] => .err (.vmInvariant "stack underflow on RAISE") s
  | v :: rest =>
      .err (kind.into_runtime (v.to_string s.heap)) { s with stack := rest }

/-- Execute one instruction, dispatching exactly as the `match` in the
`vm.rs::run` loop. `Load` of a name bound in neither the local
environment nor the globals pushes `Int(0)` (the code as written; the
repository\x27s own test `load_unknown_name_errors` expects
`UndefinedIdentError`). `Store` follows the local/global placement rules
and silently does nothing on an empty stack. -/
def execInstr (ctx : Ctx) (i : Instr) (s : VMState) : StepRes :=
  match i with
  | .PushInt v => .ok (push s (.int v)) true
  | .PushStr str => .ok (push s (.str str)) true
  | .PushBool b => .ok (push s (.bool b)) true
  | .BuildList n => wrapRes (handle_build_list n s)
  | .BuildDict n => wrapRes (handle_build_dict n s)
  | .Load name =>
      match assocLookup s.env name with
      | some v => .ok (push s v) true
      | Option.none =>
          match assocLookup s.globals name with
          | some v => .ok (push s v) true
          | Option.none => .ok (push s (.int 0)) true
  | .Store name =>
      match s.stack with
      | [] => .ok s true
      | v :: rest =>
          let s1 := { s with stack := rest }
          if s1.envStack.isEmpty then
            .ok { s1 with globals := assocInsert s1.globals name v } true
          else if assocContains s1.env name then
            .ok { s1 with env := assocInsert s1.env name v } true
          else if assocContains s1.globals name then
            .ok { s1 with globals := assocInsert s1.globals name v } true
          else
            .ok { s1 with env := assocInsert s1.env name v } true
  | .Add => wrapRes (handle_add s)
  | .Sub => wrapRes (handle_sub s)
  | .Mul => wrapRes (handle_mul s)
  | .Div => wrapRes (handle_div s)
  | .Mod => wrapRes (handle_mod s)
  | .Eq => wrapRes (handle_eq s)
  | .Ne => wrapRes (handle_ne s)
  | .Lt => wrapRes (handle_cmp (fun a b => a < b) (fun a b => a < b) s)
  | .Le => wrapRes (handle_cmp (fun a b => a ≤ b) (fun a b => a ≤ b) s)
  | .Gt => wrapRes (handle_cmp (fun a b => b < a) (fun a b => b < a) s)
  | .Ge => wrapRes (handle_cmp (fun a b => b ≤ a) (fun a b => b ≤ a) s)
  | .BAnd => wrapRes (handle_bits Int.land s)
  | .BOr => wrapRes (handle_bits Int.lor s)
  | .BXor => wrapRes (handle_bits Int.xor s)
  | .Shl => wrapRes (handle_bits shl64 s)
  | .Shr => wrapRes (handle_bits shr64 s)
  | .And => wrapRes (handle_boolop (fun a b => a && b) s)
  | .Or => wrapRes (handle_boolop (fun a b => a || b) s)
  | .Not => wrapRes (handle_not s)
  | .Neg => wrapRes (handle_neg s)
  | .Index => wrapRes (handle_index s)
  | .Slice => wrapRes (handle_slice s)
  | .Jump target => .ok { s with pc := target } false
  | .JumpIfFalse target =>
      match pop1 s with
      | .error (e, s1) => .err e s1
      | .ok (cond, s1) =>
          if cond.as_bool s1.heap then .ok s1 true
          else .ok { s1 with pc := target } false
  | .Call name => handle_call ctx.funcs name s
  | .TailCall name => handle_tail_call ctx.funcs name s
  | .CallBuiltin name argc => handle_call_builtin name argc s
  | .Pop => .ok { s with stack := s.stack.tail } true
  | .PushNone => .ok (push s .none) true
  | .Ret => handle_ret s
  | .Emit =>
      match s.stack with
      | [] => .ok s true
      | v :: rest =>
          .ok { s with stack := rest
                       output := s.output ++ [v.to_string s.heap] } true
  | .Halt => .ok { s with pc := ctx.code.length } false
  | .StoreIndex => wrapRes (handle_store_index s)
  | .Attr attr => wrapRes (handle_attr attr s)
  | .StoreAttr attr => wrapRes (handle_store_attr attr s)
  | .Assert => wrapRes (handle_assert s)
  | .CallValue argc => handle_call_value ctx.funcs argc s
  | .SetupExcept target =>
      .ok { s with blockStack :=
        { handler := target
          stackSize := s.stack.length
          envDepth := s.envStack.length
          retDepth := s.retStack.length } :: s.blockStack } true
  | .PopBlock => .ok { s with blockStack := s.blockStack.tail } true
  | .Raise kind => handle_raise kind s

/-- Rust `Vec::truncate`: keep the oldest `n` entries. Stacks here list
the newest entry first, so this drops from the front. -/
def vecTruncate {α : Type} (l : List α) (n : Nat) : List α :=
  l.drop (l.length - n)

/-- Frame-popping loop of the unwinder: while the environment stack is
deeper than the captured depth, pop a frame into `env` and pop the
return stack alongside. -/
def popFrames : Env → List Env → List Nat → Nat → Env × List Env × List Nat
  | env, [], ret, _ => (env, [], ret)
  | env, e :: rest, ret, depth =>
      if rest.length + 1 > depth then popFrames e rest ret.tail depth
      else (env, e :: rest, ret)

/-- Exception unwinding from the error branch of the `vm.rs::run` loop:
pop one protected block (if any), restore the frame stacks to the
captured depths, truncate the operand stack, push the error\x27s display
string and transfer control to the handler. `Option.none` means the
error terminates the run. -/
def unwind (e : RuntimeError) (s : VMState) : Option VMState :=
  match s.blockStack with
  | [] => Option.none
  | b :: bs =>
      let (env1, envStack1, retStack1) :=
        popFrames s.env s.envStack s.retStack b.envDepth
      some { s with
        env := env1
        envStack := envStack1
        retStack := vecTruncate retStack1 b.retDepth
        stack := (.str e.display) :: vecTruncate s.stack b.stackSize
        pc := b.handler
        blockStack := bs }

/-- Outcome of one driver iteration. -/
inductive StepOut where
  | next : VMState → StepOut
  | halted : VMState → StepOut
  | failed : RuntimeError → VMState → StepOut
  | crashed : StepOut
deriving DecidableEq, Repr

/-- One iteration of the fetch–decode–execute loop of `vm.rs::run`:
fetch (or stop when the pc has run off the code), execute, unwind on
error, advance the pc unless the handler already placed it. -/
def driverStep (ctx : Ctx) (s : VMState) : StepOut :=
  match ctx.code.get? s.pc with
  | Option.none => .halted s
  | some i =>
      match execInstr ctx i s with
      | .ok s1 adv => .next (if adv then { s1 with pc := s1.pc + 1 } else s1)
      | .err e s1 =>
          match unwind e s1 with
          | some s2 => .next s2
          | Option.none => .failed e s1
      | .crashed => .crashed

/-- Final outcome of a run (with explicit fuel standing for the
unbounded loop). -/
inductive RunResult where
  | done : VMState → RunResult
  | failed : RuntimeError → VMState → RunResult
  | crashed : RunResult
  | outOfFuel : VMState → RunResult
deriving DecidableEq, Repr

/-- Iterate the driver. -/
def runFuel (ctx : Ctx) : Nat → VMState → RunResult
  | 0, s => .outOfFuel s
  | fuel + 1, s =>
      match driverStep ctx s with
      | .next s1 => runFuel ctx fuel s1
      | .halted s1 => .done s1
      | .failed e s1 => .failed e s1
      | .crashed => .crashed

/-- Model of `Path::parent` for the simple normalized paths the driver
seeds: drop the final `/`-separated component. -/
def pathParent (s : String) : Option String :=
  if s = "" ∨ s = "/" then Option.none
  else
    match (s.splitOn "/").dropLast with
    | [] => Option.none
    | [""] => some "/"
    | [p] => some p
    | ps => some (joinSep "/" ps)

/-- Initial state of `vm.rs::run`: empty stacks, globals seeded with the
`args` list (heap cell 0), `module_file` and `current_dir`. -/
def initState (programArgs : List String) (w : World) : VMState :=
  let argVals : List Value := programArgs.map .str
  let heap0 : Heap := { lists := [argVals], dicts := [], frozens := [] }
  let globals0 : Env := [("args", .list 0)]
  let globals1 :=
    match programArgs with
    | first :: _ =>
        let path := normSlashes first
        let g := assocInsert globals0 "module_file" (.str path)
        match pathParent path with
        | some parent => assocInsert g "current_dir" (.str parent)
        | Option.none => assocInsert g "current_dir" (.str ".")
    | [] =>
        assocInsert (assocInsert globals0 "module_file" (.str "<stdin>"))
          "current_dir" (.str ".")
  { stack := [], env := [], globals := globals1, envStack := [], retStack := [],
    pc := 0, blockStack := [], heap := heap0, world := w, output := [] }

/-- Whole-program execution: `vm.rs::run` with explicit fuel. -/
def run (code : List Instr) (funcs : List (String × Function))
    (programArgs : List String) (w : World) (fuel : Nat) : RunResult :=
  runFuel { code := code, funcs := funcs } fuel (initState programArgs w)

/-- Empty world for programs that perform no file operations. -/
def emptyWorld : World := { fs := [], handles := [], nextFd := 0, osErr := "io error" }

/-- Operand stack of a cleanly halted run. -/
def RunResult.finalStack : RunResult → Option (List Value)
  | .done s => some s.stack
  | _ => Option.none

/-- Error of a run terminated by an unhandled runtime error. -/
def RunResult.errorOf : RunResult → Option RuntimeError
  | .failed e _ => some e
  | _ => Option.none

/-- Dict heap of a cleanly halted run. -/
def RunResult.finalDicts : RunResult → Option (List Env)
  | .done s => some s.heap.dicts
  | _ => Option.none

/-- Test for the value variants that are not shared aggregates with
store semantics: `Int`, `Str`, `Bool` and `None`. -/
def Value.isPlain : Value → Bool
  | .list _ => false
  | .dict _ => false
  | .frozenDict _ => false
  | _ => true

/-- Base state used to exercise single instructions: an empty machine
over the given operand stack and heap. -/
def stateOn (h : Heap) (stack : List Value) : VMState :=
  { stack := stack, env := [], globals := [], envStack := [], retStack := [],
    pc := 0, blockStack := [], heap := h, world := emptyWorld, output := [] }

/-- Empty heap. -/
def heap0 : Heap := { lists := [], dicts := [], frozens := [] }

/-- Empty run context for single-instruction executions. -/
def ctx0 : Ctx := { code := [], funcs := [] }

/-- Heap holding one frozen dict cell. -/
def heapFz : Heap := { lists := [], dicts := [], frozens := [[("k", Value.int 1)]] }

/-- State about to `StoreIndex` into a frozen dict. -/
def stFz : VMState := stateOn heapFz [.int 1, .int 0, .frozenDict 0]

/-- State about to `StoreAttr` into a frozen dict. -/
def stFa : VMState := stateOn heapFz [.int 1, .frozenDict 0]

/-- C1: the spec and the repository\x27s own test `load_unknown_name_errors`
require `Load` of a name absent from both environments to fail with
`UndefinedIdentError(name)`, but the `Load` arm of `vm.rs::run` pushes
`Int(0)` instead: the program `Load "x"; Halt` run with empty
environments halts cleanly with `Int(0)` on the stack and raises no
error at all (the expected display would have been
`UndefinedIdentError: x`). -/
theorem C1_load_missing_pushes_zero :
    (run [.Load "x", .Halt] [] [] emptyWorld 10).finalStack = some [.int 0] ∧
    (run [.Load "x", .Halt] [] [] emptyWorld 10).errorOf = Option.none ∧
    RuntimeError.display (.undefinedIdentError "x") = "UndefinedIdentError: x" := by
  exact ⟨by decide, by decide, rfl⟩

/-- C8: for any two operand values, `Eq` completes without error and
pushes the boolean comparing the stringified forms, and `Ne` pushes its
negation — comparison is total across heterogeneous types. -/
theorem C8_eq_ne_stringified (ctx : Ctx) (s : VMState) (a b : Value)
    (rest : List Value) (hs : s.stack = b :: a :: rest) :
    execInstr ctx .Eq s =
      .ok (push { s with stack := rest }
        (.bool (a.to_string s.heap == b.to_string s.heap))) true ∧
    execInstr ctx .Ne s =
      .ok (push { s with stack := rest }
        (.bool (!(a.to_string s.heap == b.to_string s.heap)))) true := by
  constructor <;>
    simp [execInstr, handle_eq, handle_ne, wrapRes, toRes, pop1, hs, push, bne,
      bind, Except.bind]

/-- Closed instance of `C8_eq_ne_stringified` at `Int(1)` and
`Bool(true)` on an empty heap. -/
theorem C8_witness :
    execInstr ctx0 .Eq (stateOn heap0 [.bool true, .int 1]) =
      .ok (push { stateOn heap0 [.bool true, .int 1] with stack := [] }
        (.bool ((Value.int 1).to_string (stateOn heap0 [.bool true, .int 1]).heap ==
          (Value.bool true).to_string (stateOn heap0 [.bool true, .int 1]).heap))) true ∧
    execInstr ctx0 .Ne (stateOn heap0 [.bool true, .int 1]) =
      .ok (push { stateOn heap0 [.bool true, .int 1] with stack := [] }
        (.bool (!((Value.int 1).to_string (stateOn heap0 [.bool true, .int 1]).heap ==
          (Value.bool true).to_string (stateOn heap0 [.bool true, .int 1]).heap)))) true :=
  C8_eq_ne_stringified ctx0 (stateOn heap0 [.bool true, .int 1]) (.int 1) (.bool true) [] rfl

/-- C10: when the base operand is neither a list, a dict nor a frozen
dict, `StoreIndex` and `StoreAttr` are silent no-ops: the operands are
consumed, no error is produced, and nothing outside the operand stack
changes. -/
theorem C10_store_nonaggregate_noop (ctx : Ctx) (s : VMState)
    (val idx base : Value) (rest : List Value) (attr : String)
    (hbase : base.isPlain = true) :
    (s.stack = val :: idx :: base :: rest →
      execInstr ctx .StoreIndex s = .ok { s with stack := rest } true) ∧
    (s.stack = val :: base :: rest →
      execInstr ctx (.StoreAttr attr) s = .ok { s with stack := rest } true) := by
  constructor <;> intro hs <;> cases base <;>
    simp_all [Value.isPlain, execInstr, handle_store_index, handle_store_attr,
      wrapRes]

/-- Closed instance of `C10_store_nonaggregate_noop` storing into an
`Int` base. -/
theorem C10_witness :
    execInstr ctx0 .StoreIndex (stateOn heap0 [.int 1, .int 0, .int 7]) =
      .ok { stateOn heap0 [.int 1, .int 0, .int 7] with stack := [] } true ∧
    execInstr ctx0 (.StoreAttr "a") (stateOn heap0 [.int 1, .str "s"]) =
      .ok { stateOn heap0 [.int 1, .str "s"] with stack := [] } true :=
  ⟨(C10_store_nonaggregate_noop ctx0 (stateOn heap0 [.int 1, .int 0, .int 7])
      (.int 1) (.int 0) (.int 7) [] "a" rfl).1 rfl,
   (C10_store_nonaggregate_noop ctx0 (stateOn heap0 [.int 1, .str "s"])
      (.int 1) (.int 0) (.str "s") [] "a" rfl).2 rfl⟩

/-- C3, counterexample: with divisor `-1` (nonzero) and dividend
`i64::MIN`, `Div` does not push the quotient — the Rust division
overflows and aborts the process, so the claim fails at this input. -/
theorem C3_counterexample :
    execInstr ctx0 .Div (stateOn heap0 [.int (-1), .int (-(2 ^ 63))]) =
      .crashed ∧ (-1 : Int) ≠ 0 := by
  exact ⟨by decide, by decide⟩

/-- C3, amended: for integer operands with the stack topped by the
divisor `b` over the dividend `a`, a nonzero `b` (except the
`i64::MIN / -1` overflow, which aborts) pops both and pushes the
truncated quotient, while `b = 0` fails with `ZeroDivisionError` before
`a` is popped; `Mod` obeys the same zero-divisor rule. -/
theorem C3_div_mod_amended (ctx : Ctx) (s : VMState) (a b : Int)
    (rest : List Value) (hs : s.stack = .int b :: .int a :: rest) :
    (b ≠ 0 → ¬(a = -(2 ^ 63) ∧ b = -1) →
      execInstr ctx .Div s =
        .ok (push { s with stack := rest } (.int (a.tdiv b))) true) ∧
    (b = 0 → execInstr ctx .Div s =
      .err .zeroDivisionError { s with stack := .int a :: rest }) ∧
    (b ≠ 0 → ¬(a = -(2 ^ 63) ∧ b = -1) →
      execInstr ctx .Mod s =
        .ok (push { s with stack := rest } (.int (a.tmod b))) true) ∧
    (b = 0 → execInstr ctx .Mod s =
      .err .zeroDivisionError { s with stack := .int a :: rest }) := by
  refine ⟨fun h1 h2 => ?_, fun h1 => ?_, fun h1 h2 => ?_, fun h1 => ?_⟩ <;>
    simp_all [execInstr, handle_div, handle_mod, wrapRes, pop1, asIntE,
      Value.as_int, push, bind, Except.bind] <;>
    rw [if_neg (by tauto)]

/-- Closed instance of `C3_div_mod_amended`: `7 / 2` pushes `3`, and
division by zero fails. -/
theorem C3_witness :
    execInstr ctx0 .Div (stateOn heap0 [.int 2, .int 7]) =
      .ok (push { stateOn heap0 [.int 2, .int 7] with stack := [] }
        (.int (Int.tdiv 7 2))) true ∧
    execInstr ctx0 .Div (stateOn heap0 [.int 0, .int 7]) =
      .err .zeroDivisionError
        { stateOn heap0 [.int 0, .int 7] with stack := [.int 7] } :=
  ⟨(C3_div_mod_amended ctx0 (stateOn heap0 [.int 2, .int 7]) 7 2 [] rfl).1
      (by decide) (by decide),
   (C3_div_mod_amended ctx0 (stateOn heap0 [.int 0, .int 7]) 7 0 [] rfl).2.1 rfl⟩

set_option maxHeartbeats 1600000 in
/-- C7, counterexample: the S6 scenario — a list `[1, 2]` stored under
two globals and then `Add`-ed with itself — does not leave both globals
reading `[1, 2, 1, 2]`: extending the left list with itself borrows the
same `RefCell` mutably and immutably at once, so the Rust runtime
panics and the VM aborts with no final state at all. -/
theorem C7_counterexample :
    run [.PushInt 1, .PushInt 2, .BuildList 2, .Store "L1", .Load "L1",
      .Store "L2", .Load "L1", .Load "L2", .Add, .Halt] [] [] emptyWorld 20 =
      .crashed := by
  decide

/-- C7, amended: when the two operands are distinct list cells, `Add`
extends the left cell in place with the elements of the right one and
pushes the left list value itself, so every alias of the left cell
observes the appended contents; when both operands are the very same
cell the VM panics instead. -/
theorem C7_add_distinct_lists (ctx : Ctx) (s : VMState) (ra rb : Nat)
    (rest : List Value) (hne : ra ≠ rb)
    (hs : s.stack = .list rb :: .list ra :: rest) :
    execInstr ctx .Add s =
      .ok (push { s with stack := rest, heap := { s.heap with lists := s.heap.lists.set ra (s.heap.lists.getD ra [] ++ s.heap.lists.getD rb []) } }
        (.list ra)) true := by
  simp [execInstr, handle_add, wrapRes, pop1, hs, push, hne]

/-- Heap with two singleton list cells, used by witnesses. -/
def heap12 : Heap := { lists := [[.int 1], [.int 2]], dicts := [], frozens := [] }

/-- Closed instance of `C7_add_distinct_lists`: `[1] ++ [2]` over
distinct cells updates cell 0 to `[1, 2]` and pushes the left list. -/
theorem C7_witness :
    execInstr ctx0 .Add (stateOn heap12 [.list 1, .list 0]) =
      .ok (push { stateOn heap12 [.list 1, .list 0] with
        stack := []
        heap := { heap12 with lists := heap12.lists.set 0 (heap12.lists.getD 0 [] ++ heap12.lists.getD 1 []) } }
        (.list 0)) true :=
  C7_add_distinct_lists ctx0 (stateOn heap12 [.list 1, .list 0]) 0 1 []
    (by decide) rfl

/-- Dispatch of the builtin table at the name `read_file`. -/
lemma call_builtin_read_file_eq (h : Heap) (w : World) (fuel : Nat)
    (path : String) (env globals : Env) :
    call_builtin h w fuel "read_file" [.str path] env globals =
      (match readToString w.fs (resolve_path path env globals) with
       | some content => .ok (.str content) h w
       | Option.none =>
           .err (.moduleImportError ("failed to read \x27" ++
             resolve_path path env globals ++ "\x27: " ++ w.osErr))) := by
  cases fuel <;> rfl

/-- C9: `read_file` resolves its path against `current_dir` and then
either returns the file\x27s text as a `Str` (the only success shape) or
fails with `ModuleImportError` when the read fails. -/
theorem C9_read_file (h : Heap) (w : World) (fuel : Nat) (path : String)
    (env globals : Env) :
    (∀ c, readToString w.fs (resolve_path path env globals) = some c →
      call_builtin h w fuel "read_file" [.str path] env globals =
        .ok (.str c) h w) ∧
    (readToString w.fs (resolve_path path env globals) = Option.none →
      call_builtin h w fuel "read_file" [.str path] env globals =
        .err (.moduleImportError ("failed to read \x27" ++
          resolve_path path env globals ++ "\x27: " ++ w.osErr))) := by
  constructor
  · intro c hc
    rw [call_builtin_read_file_eq, hc]
  · intro hc
    rw [call_builtin_read_file_eq, hc]

/-- World with one on-disk file `d/f.txt` holding the bytes of `hi`. -/
def worldHi : World :=
  { fs := [("d/f.txt", [104, 105])], handles := [], nextFd := 0, osErr := "io error" }

/-- Closed instance of `C9_read_file`: reading `f.txt` relative to
`current_dir = d` succeeds with the decoded text, and reading from an
empty file system fails with `ModuleImportError`. -/
theorem C9_witness :
    call_builtin heap0 worldHi 3 "read_file" [.str "f.txt"] []
        [("current_dir", .str "d")] = .ok (.str "hi") heap0 worldHi ∧
    call_builtin heap0 emptyWorld 3 "read_file" [.str "f.txt"] [] [] =
      .err (.moduleImportError ("failed to read \x27" ++
        resolve_path "f.txt" [] [] ++ "\x27: " ++ emptyWorld.osErr)) :=
  ⟨(C9_read_file heap0 worldHi 3 "f.txt" [] [("current_dir", .str "d")]).1 "hi"
      (by decide),
   (C9_read_file heap0 emptyWorld 3 "f.txt" [] []).2 (by decide)⟩

/-- C6, counterexample: slicing a non-sliceable base skips every bounds
check — with base `Int(7)` and start `-1` the claim demands an
`IndexError`, but `Slice` completes without error and pushes `Int(0)`. -/
theorem C6_counterexample :
    execInstr ctx0 .Slice (stateOn heap0 [.int 0, .int (-1), .int 7]) =
      .ok (push { stateOn heap0 [.int 0, .int (-1), .int 7] with stack := [] }
        (.int 0)) true := by
  decide

/-- Length a slice is checked against: the element count of a list cell
or the character count of a string; other bases are not bounds-checked. -/
def sliceLen (h : Heap) : Value → Option Nat
  | .list r => some (h.lists.getD r []).length
  | .str str => some str.data.length
  | _ => Option.none

/-- Characterization of `Slice` on a list base with integer operands:
an `IndexError` exactly when a bound is violated, otherwise a fresh cell
holding the selected segment. -/
lemma slice_list_eq (ctx : Ctx) (s : VMState) (r : Nat) (st en : Int)
    (rest : List Value)
    (hs : s.stack = .int en :: .int st :: .list r :: rest) :
    execInstr ctx .Slice s =
      (if st < 0 ∨ en < 0 ∨ en < st ∨ ((s.heap.lists.getD r []).length : Int) < en then
        .err (.indexError "Slice indices out of bounds!") { s with stack := rest }
      else
        .ok (push { s with stack := rest, heap := { s.heap with lists := s.heap.lists ++ [((s.heap.lists.getD r []).take en.toNat).drop st.toNat] } }
          (.list s.heap.lists.length)) true) := by
  simp only [execInstr, handle_slice, wrapRes, toRes, pop1, asIntE,
    Value.as_int, hs, bind, Except.bind, push]
  split_ifs <;> first | rfl | omega

/-- Characterization of `Slice` on a string base with integer operands. -/
lemma slice_str_eq (ctx : Ctx) (s : VMState) (str : String) (st en : Int)
    (rest : List Value)
    (hs : s.stack = .int en :: .int st :: .str str :: rest) :
    execInstr ctx .Slice s =
      (if st < 0 ∨ en < 0 ∨ en < st ∨ (str.data.length : Int) < en then
        .err (.indexError "Slice indices out of bounds!") { s with stack := rest }
      else
        .ok (push { s with stack := rest }
          (.str ⟨(str.data.take en.toNat).drop st.toNat⟩)) true) := by
  simp only [execInstr, handle_slice, wrapRes, toRes, pop1, asIntE,
    Value.as_int, hs, bind, Except.bind, push]
  split_ifs <;> first | rfl | omega

/-- C6, amended: for list and string bases with integer start/end
operands, `Slice` is partially correct — if it completes without error
then `0 ≤ start ≤ end ≤ len`, and any violated bound fails with
`IndexError`; bases that are neither lists nor strings are not
bounds-checked at all (`Slice` then pushes `Int(0)`). -/
theorem C6_slice_amended (ctx : Ctx) (s : VMState) (base : Value)
    (st en : Int) (len : Nat) (rest : List Value)
    (hbase : sliceLen s.heap base = some len)
    (hs : s.stack = .int en :: .int st :: base :: rest) :
    (∀ s1 adv, execInstr ctx .Slice s = .ok s1 adv →
      0 ≤ st ∧ st ≤ en ∧ en ≤ (len : Int)) ∧
    (st < 0 ∨ en < 0 ∨ en < st ∨ (len : Int) < en →
      execInstr ctx .Slice s =
        .err (.indexError "Slice indices out of bounds!") { s with stack := rest }) := by
  cases base
  case int i => exact Option.noConfusion hbase
  case bool b => exact Option.noConfusion hbase
  case dict r => exact Option.noConfusion hbase
  case frozenDict r => exact Option.noConfusion hbase
  case none => exact Option.noConfusion hbase
  case list r =>
    have heq := slice_list_eq ctx s r st en rest hs
    have hlen0 : (s.heap.lists.getD r []).length = len := by
      simpa [sliceLen] using hbase
    rw [hlen0] at heq
    constructor
    · intro s1 adv hok
      rw [heq] at hok
      by_cases hv : st < 0 ∨ en < 0 ∨ en < st ∨ (len : Int) < en
      · rw [if_pos hv] at hok; exact absurd hok (by simp)
      · omega
    · intro hv
      rw [heq, if_pos hv]
  case str str =>
    have heq := slice_str_eq ctx s str st en rest hs
    have hlen0 : str.data.length = len := by simpa [sliceLen] using hbase
    rw [hlen0] at heq
    constructor
    · intro s1 adv hok
      rw [heq] at hok
      by_cases hv : st < 0 ∨ en < 0 ∨ en < st ∨ (len : Int) < en
      · rw [if_pos hv] at hok; exact absurd hok (by simp)
      · omega
    · intro hv
      rw [heq, if_pos hv]

/-- Closed instance of `C6_slice_amended`: slicing the empty list with
`start = 0`, `end = 1` fails with `IndexError` (scenario S7). -/
theorem C6_witness :
    execInstr ctx0 .Slice (stateOn { lists := [[]], dicts := [], frozens := [] }
        [.int 1, .int 0, .list 0]) =
      .err (.indexError "Slice indices out of bounds!")
        { stateOn { lists := [[]], dicts := [], frozens := [] }
            [.int 1, .int 0, .list 0] with stack := [] } :=
  (C6_slice_amended ctx0
    (stateOn { lists := [[]], dicts := [], frozens := [] } [.int 1, .int 0, .list 0])
    (.list 0) 0 1 0 [] rfl rfl).2 (by omega)

/-- Stack image of `(key, value)` pairs pushed in order: the pair
pushed last sits on top, each pair as value over key. -/
def interleave : List (Value × Value) → List Value
  | [] => []
  | (k, v) :: t => v :: k :: interleave t

/-- Stack contents after pushing the pairs of `ps` left to right. -/
def pushPairs (ps : List (Value × Value)) : List Value :=
  interleave ps.reverse

/-- Insert a list of bindings left to right, later inserts replacing
earlier ones, as the `map.insert` loop of `handle_build_dict`. -/
def insertAll (m : Env) : List (String × Value) → Env
  | [] => m
  | (k, v) :: t => insertAll (assocInsert m k v) t

/-- Lookup after insert: the inserted binding shadows the old one. -/
lemma assocLookup_insert (m : Env) (k : String) (v : Value) (key : String) :
    assocLookup (assocInsert m k v) key =
      if k = key then some v else assocLookup m key := by
  induction m with
  | nil => simp [assocInsert, assocLookup]
  | cons hd t ih =>
      obtain ⟨k0, v0⟩ := hd
      by_cases h0 : k0 = k
      · subst h0
        by_cases h1 : k0 = key <;> simp [assocInsert, assocLookup, h1]
      · by_cases h1 : k0 = key
        · subst h1
          simp [assocInsert, assocLookup, h0, Ne.symm h0,
            (fun h => h0 h.symm : ¬ k = k0)]
        · simp [assocInsert, assocLookup, h0, h1, ih]

/-- Finding in a concatenation searches the left part first. -/
lemma findq_append {α : Type} (l1 l2 : List α) (p : α → Bool) :
    (l1 ++ l2).find? p =
      (match l1.find? p with
       | some x => some x
       | Option.none => l2.find? p) := by
  induction l1 with
  | nil => simp
  | cons hd t ih =>
      by_cases h : p hd <;> simp [List.find?, h, ih]

/-- Lookup in an inserted-left-to-right map: the LAST matching insert
wins, i.e. the first match in the reversed insertion list. -/
lemma insertAll_lookup (qs : List (String × Value)) :
    ∀ (m : Env) (key : String),
      assocLookup (insertAll m qs) key =
        (match qs.reverse.find? (fun e => e.1 == key) with
         | some e => some e.2
         | Option.none => assocLookup m key) := by
  induction qs with
  | nil => intro m key; simp [insertAll]
  | cons hd t ih =>
      intro m key
      obtain ⟨k, v⟩ := hd
      rw [show insertAll m ((k, v) :: t) = insertAll (assocInsert m k v) t from rfl,
        ih, List.reverse_cons, findq_append]
      cases hfind : t.reverse.find? (fun e => e.1 == key) with
      | some e => simp
      | none =>
          by_cases hk : k = key
          · simp [List.find?, hk, assocLookup_insert]
          · have hkf : (k == key) = false := by simp [hk]
            simp [List.find?, hkf, assocLookup_insert, hk]

/-- Record-update identity used to close loop invariants. -/
lemma state_stack_eta (s : VMState) (rest : List Value)
    (h : s.stack = rest) : { s with stack := rest } = s := by
  cases s; simp_all

/-- The pop loop of `handle_build_dict` over a stack holding the pushed
pairs: it consumes them top down and inserts them in reverse push
order. -/
lemma buildDictLoop_eq (qs : List (Value × Value)) (rest : List Value) :
    ∀ (s : VMState) (m : Env), s.stack = interleave qs ++ rest →
      buildDictLoop qs.length s m =
        .ok (insertAll m (qs.map (fun p => (p.1.to_string s.heap, p.2))),
          { s with stack := rest }) := by
  induction qs with
  | nil =>
      intro s m hs
      simp only [interleave, List.nil_append] at hs
      simp [buildDictLoop, insertAll, state_stack_eta s rest hs]
  | cons hd t ih =>
      intro s m hs
      obtain ⟨k, v⟩ := hd
      simp only [interleave, List.cons_append] at hs
      have step : buildDictLoop ((k, v) :: t).length s m =
          buildDictLoop t.length { s with stack := interleave t ++ rest }
            (assocInsert m (k.to_string s.heap) v) := by
        simp [buildDictLoop, pop1, hs, bind, Except.bind]
      rw [step, ih { s with stack := interleave t ++ rest } _ rfl]
      simp [insertAll]

/-- C5, counterexample: pushing the pairs `("k", 1)` then `("k", 2)` and
executing `BuildDict 2` retains the value of the pair pushed FIRST — the
built dict maps `"k"` to `1`, not to the later-pushed `2` — because the
loop pops pairs from the top of the stack and each `HashMap::insert` of
an earlier pair replaces the later one. -/
theorem C5_counterexample :
    (run [.PushStr "k", .PushInt 1, .PushStr "k", .PushInt 2, .BuildDict 2,
      .Halt] [] [] emptyWorld 20).finalDicts = some [[("k", .int 1)]] ∧
    Value.int 1 ≠ Value.int 2 := by
  exact ⟨by decide, by decide⟩

/-- C5, amended: `BuildDict n` pops `n` (key, value) pairs, stringifies
each key, and builds a fresh dict cell in which the pair pushed EARLIEST
among those sharing a stringified key is the one retained (the pop loop
inserts the pairs in reverse push order, and later inserts overwrite). -/
theorem C5_build_dict_first_write_wins (ctx : Ctx) (s : VMState)
    (ps : List (Value × Value)) (rest : List Value)
    (hs : s.stack = pushPairs ps ++ rest) :
    execInstr ctx (.BuildDict ps.length) s =
      .ok (push { s with stack := rest, heap := { s.heap with dicts := s.heap.dicts ++ [insertAll [] (ps.reverse.map (fun p => (p.1.to_string s.heap, p.2)))] } }
        (.dict s.heap.dicts.length)) true ∧
    ∀ key, assocLookup
        (insertAll [] (ps.reverse.map (fun p => (p.1.to_string s.heap, p.2)))) key =
      (ps.find? (fun p => p.1.to_string s.heap == key)).map Prod.snd := by
  constructor
  · have hloop := buildDictLoop_eq ps.reverse rest s [] (by simpa [pushPairs] using hs)
    rw [List.length_reverse] at hloop
    simp [execInstr, handle_build_dict, wrapRes, toRes, bind, Except.bind,
      hloop, push]
  · intro key
    rw [insertAll_lookup]
    rw [show (ps.reverse.map (fun p => (p.1.to_string s.heap, p.2))).reverse =
      ps.map (fun p => (p.1.to_string s.heap, p.2)) by
        rw [← List.map_reverse, List.reverse_reverse]]
    rw [List.find?_map]
    have hcomp : ((fun e => e.1 == key) ∘ fun p : Value × Value =>
        (Value.to_string s.heap p.1, p.2)) =
        fun p : Value × Value => Value.to_string s.heap p.1 == key := by
      funext p; rfl
    rw [hcomp]
    cases hf : ps.find? (fun p => Value.to_string s.heap p.1 == key) <;>
      simp [hf, assocLookup]

/-- Closed instance of `C5_build_dict_first_write_wins` at the
duplicate-key pair list of the counterexample. -/
theorem C5_witness :
    execInstr ctx0 (.BuildDict [((Value.str "k"), (Value.int 1)), ((Value.str "k"), (Value.int 2))].length)
      (stateOn heap0 (pushPairs [((Value.str "k"), (Value.int 1)), ((Value.str "k"), (Value.int 2))])) =
      .ok (push { stateOn heap0 (pushPairs [((Value.str "k"), (Value.int 1)), ((Value.str "k"), (Value.int 2))]) with
        stack := []
        heap := { heap0 with dicts := heap0.dicts ++ [insertAll [] ([((Value.str "k"), (Value.int 1)), ((Value.str "k"), (Value.int 2))].reverse.map (fun p => (p.1.to_string heap0, p.2)))] } }
        (.dict heap0.dicts.length)) true :=
  (C5_build_dict_first_write_wins ctx0
    (stateOn heap0 (pushPairs [((Value.str "k"), (Value.int 1)), ((Value.str "k"), (Value.int 2))]))
    [((Value.str "k"), (Value.int 1)), ((Value.str "k"), (Value.int 2))] []
    (by simp [stateOn])).1

/-- Relation between a state and a handler\x27s result state: every
component other than the operand stack and the heap is untouched, and
the frozen-dict store can only have grown (existing cells intact). -/
def tameS (s s1 : VMState) : Prop :=
  s1.env = s.env ∧ s1.globals = s.globals ∧ s1.envStack = s.envStack ∧
  s1.retStack = s.retStack ∧ s1.pc = s.pc ∧ s1.blockStack = s.blockStack ∧
  s1.world = s.world ∧ s1.output = s.output ∧
  ∃ ext, s1.heap.frozens = s.heap.frozens ++ ext

/-- Tameness of a handler result: both the success state and the
error-point state are `tameS`; a crash has no state. -/
def tame (s : VMState) : Res → Prop
  | .ok s1 => tameS s s1
  | .err _ s1 => tameS s s1
  | .crashed => True

/-- Reflexivity of `tameS`. -/
lemma tameS_refl (s : VMState) : tameS s s :=
  ⟨rfl, rfl, rfl, rfl, rfl, rfl, rfl, rfl, [], (List.append_nil _).symm⟩

/-- States that differ only in the operand stack are tame. -/
lemma tameS_stack (s : VMState) (st : List Value) :
    tameS s { s with stack := st } :=
  ⟨rfl, rfl, rfl, rfl, rfl, rfl, rfl, rfl, [], (List.append_nil _).symm⟩

/-- States that differ in stack and heap are tame when the frozen store
only grew. -/
lemma tameS_stack_heap (s : VMState) (st : List Value) (h1 : Heap)
    (hfz : ∃ ext, h1.frozens = s.heap.frozens ++ ext) :
    tameS s { s with stack := st, heap := h1 } :=
  ⟨rfl, rfl, rfl, rfl, rfl, rfl, rfl, rfl, hfz⟩

/-- Transitivity of `tameS`. -/
lemma tameS_trans (s1 s2 s3 : VMState) (h1 : tameS s1 s2)
    (h2 : tameS s2 s3) : tameS s1 s3 := by
  obtain ⟨a1, b1, c1, d1, e1, f1, g1, o1, ext1, hf1⟩ := h1
  obtain ⟨a2, b2, c2, d2, e2, f2, g2, o2, ext2, hf2⟩ := h2
  exact ⟨a2.trans a1, b2.trans b1, c2.trans c1, d2.trans d1, e2.trans e1,
    f2.trans f1, g2.trans g1, o2.trans o1,
    ⟨ext1 ++ ext2, by rw [hf2, hf1, List.append_assoc]⟩⟩

/-- `pop1` only touches the stack. -/
lemma pop1_tame (s : VMState) :
    (∀ v s1, pop1 s = .ok (v, s1) → tameS s s1) ∧
    (∀ e s1, pop1 s = .error (e, s1) → tameS s s1) := by
  constructor <;> intro a s1 h <;> unfold pop1 at h <;> split at h <;>
    cases h
  · exact tameS_stack _ _
  · exact tameS_refl _

/-- `popN` only touches the stack. -/
lemma popN_tame : ∀ (n : Nat) (s : VMState),
    (∀ vs s1, popN n s = .ok (vs, s1) → tameS s s1) ∧
    (∀ p s1, popN n s = .error (p, s1) → tameS s s1) := by
  intro n
  induction n with
  | zero =>
      intro s
      exact ⟨fun vs s1 h => by cases h; exact tameS_refl _,
             fun p s1 h => by cases h⟩
  | succ n ih =>
      intro s
      constructor
      · intro vs s1 h
        simp only [popN, bind, Except.bind] at h
        cases h1 : pop1 s with
        | error p => rw [h1] at h; cases h
        | ok pr =>
            rw [h1] at h
            dsimp only at h
            cases h2 : popN n pr.2 with
            | error p2 => rw [h2] at h; cases h
            | ok pr2 =>
                rw [h2] at h
                dsimp only at h
                cases h
                exact tameS_trans _ _ _ ((pop1_tame s).1 pr.1 pr.2 h1)
                  ((ih pr.2).1 pr2.1 pr2.2 h2)
      · intro p s1 h
        simp only [popN, bind, Except.bind] at h
        cases h1 : pop1 s with
        | error pe =>
            rw [h1] at h
            dsimp only at h
            cases h
            exact (pop1_tame s).2 p s1 h1
        | ok pr =>
            rw [h1] at h
            dsimp only at h
            cases h2 : popN n pr.2 with
            | error pe2 =>
                rw [h2] at h
                dsimp only at h
                cases h
                exact tameS_trans _ _ _ ((pop1_tame s).1 pr.1 pr.2 h1)
                  ((ih pr.2).2 p s1 h2)
            | ok pr2 =>
                rw [h2] at h
                dsimp only at h
                cases h

/-- `asIntE` leaves the state unchanged. -/
lemma asIntE_tame (s : VMState) (v : Value) :
    (∀ i s1, asIntE s v = .ok (i, s1) → s1 = s) ∧
    (∀ e s1, asIntE s v = .error (e, s1) → s1 = s) := by
  constructor <;> intro a s1 h <;> unfold asIntE at h <;> split at h <;>
    cases h <;> rfl

/-- Pushing onto a tame state stays tame. -/
lemma tameS_push (s s1 : VMState) (v : Value) (h : tameS s s1) :
    tameS s (push s1 v) :=
  tameS_trans _ _ _ h (tameS_stack s1 (v :: s1.stack))

/-- Tameness of a monadic handler chain: both its success state and its
error state are tame. -/
def excTame (s : VMState) : Exc VMState → Prop
  | .ok s1 => tameS s s1
  | .error (_, s1) => tameS s s1

/-- Collapsing a tame chain yields a tame handler result. -/
lemma tame_toRes {s : VMState} {m : Exc VMState} (h : excTame s m) :
    tame s (toRes m) := by
  cases m with
  | ok s1 => exact h
  | error p => obtain ⟨e, s1⟩ := p; exact h

/-- Chain step for `pop1`. -/
lemma excTame_pop (s s0 : VMState) (h0 : tameS s s0)
    (f : Value × VMState → Exc VMState)
    (hf : ∀ v s1, pop1 s0 = .ok (v, s1) → tameS s s1 → excTame s (f (v, s1))) :
    excTame s (pop1 s0 >>= f) := by
  cases h1 : pop1 s0 with
  | error p =>
      obtain ⟨e, s1⟩ := p
      have : tameS s0 s1 := (pop1_tame s0).2 e s1 h1
      simpa [bind, Except.bind, excTame] using tameS_trans _ _ _ h0 this
  | ok pr =>
      obtain ⟨v, s1⟩ := pr
      have ht : tameS s s1 :=
        tameS_trans _ _ _ h0 ((pop1_tame s0).1 v s1 h1)
      simpa [bind, Except.bind] using hf v s1 h1 ht

/-- Chain step for `asIntE` (state unchanged). -/
lemma excTame_asInt (s s0 : VMState) (v : Value) (h0 : tameS s s0)
    (f : Int × VMState → Exc VMState)
    (hf : ∀ i, excTame s (f (i, s0))) :
    excTame s (asIntE s0 v >>= f) := by
  cases h1 : asIntE s0 v with
  | error p =>
      obtain ⟨e, s1⟩ := p
      cases (asIntE_tame s0 v).2 e s1 h1
      simpa [bind, Except.bind, excTame] using h0
  | ok pr =>
      obtain ⟨i, s1⟩ := pr
      cases (asIntE_tame s0 v).1 i s1 h1
      simpa [bind, Except.bind] using hf i

/-- Chain step for `popN`. -/
lemma excTame_popN (s s0 : VMState) (n : Nat) (h0 : tameS s s0)
    (f : List Value × VMState → Exc VMState)
    (hf : ∀ vs s1, popN n s0 = .ok (vs, s1) → tameS s s1 →
      excTame s (f (vs, s1))) :
    excTame s (popN n s0 >>= f) := by
  cases h1 : popN n s0 with
  | error p =>
      obtain ⟨e, s1⟩ := p
      have : tameS s0 s1 := (popN_tame n s0).2 e s1 h1
      simpa [bind, Except.bind, excTame] using tameS_trans _ _ _ h0 this
  | ok pr =>
      obtain ⟨vs, s1⟩ := pr
      have ht : tameS s s1 :=
        tameS_trans _ _ _ h0 ((popN_tame n s0).1 vs s1 h1)
      simpa [bind, Except.bind] using hf vs s1 h1 ht

/-- Tameness of `handle_sub`. -/
lemma handle_sub_tame (s : VMState) : tame s (handle_sub s) := by
  unfold handle_sub
  apply tame_toRes
  apply excTame_pop _ _ (tameS_refl s)
  intro b s1 _ t1
  dsimp only
  apply excTame_asInt _ _ _ t1
  intro bi
  dsimp only
  apply excTame_pop _ _ t1
  intro a s2 _ t2
  dsimp only
  apply excTame_asInt _ _ _ t2
  intro ai
  dsimp only
  exact tameS_push _ _ _ t2

/-- Tameness of `handle_mul`. -/
lemma handle_mul_tame (s : VMState) : tame s (handle_mul s) := by
  unfold handle_mul
  apply tame_toRes
  apply excTame_pop _ _ (tameS_refl s)
  intro b s1 _ t1
  dsimp only
  apply excTame_asInt _ _ _ t1
  intro bi
  dsimp only
  apply excTame_pop _ _ t1
  intro a s2 _ t2
  dsimp only
  apply excTame_asInt _ _ _ t2
  intro ai
  dsimp only
  exact tameS_push _ _ _ t2

/-- Tameness of `handle_eq`. -/
lemma handle_eq_tame (s : VMState) : tame s (handle_eq s) := by
  unfold handle_eq
  apply tame_toRes
  apply excTame_pop _ _ (tameS_refl s)
  intro b s1 _ t1
  dsimp only
  apply excTame_pop _ _ t1
  intro a s2 _ t2
  dsimp only
  exact tameS_push _ _ _ t2

/-- Tameness of `handle_ne`. -/
lemma handle_ne_tame (s : VMState) : tame s (handle_ne s) := by
  unfold handle_ne
  apply tame_toRes
  apply excTame_pop _ _ (tameS_refl s)
  intro b s1 _ t1
  dsimp only
  apply excTame_pop _ _ t1
  intro a s2 _ t2
  dsimp only
  exact tameS_push _ _ _ t2

/-- Tameness of `handle_cmp`. -/
lemma handle_cmp_tame (fs : String → String → Bool) (fi : Int → Int → Bool)
    (s : VMState) : tame s (handle_cmp fs fi s) := by
  unfold handle_cmp
  apply tame_toRes
  apply excTame_pop _ _ (tameS_refl s)
  intro b s1 _ t1
  dsimp only
  apply excTame_pop _ _ t1
  intro a s2 _ t2
  dsimp only
  split
  · exact tameS_push _ _ _ t2
  · apply excTame_asInt _ _ _ t2
    intro ai
    dsimp only
    apply excTame_asInt _ _ _ t2
    intro bi
    dsimp only
    exact tameS_push _ _ _ t2

/-- Tameness of `handle_bits`. -/
lemma handle_bits_tame (f : Int → Int → Int) (s : VMState) :
    tame s (handle_bits f s) := by
  unfold handle_bits
  apply tame_toRes
  apply excTame_pop _ _ (tameS_refl s)
  intro b s1 _ t1
  dsimp only
  apply excTame_asInt _ _ _ t1
  intro bi
  dsimp only
  apply excTame_pop _ _ t1
  intro a s2 _ t2
  dsimp only
  apply excTame_asInt _ _ _ t2
  intro ai
  dsimp only
  exact tameS_push _ _ _ t2

/-- Tameness of `handle_boolop`. -/
lemma handle_boolop_tame (f : Bool → Bool → Bool) (s : VMState) :
    tame s (handle_boolop f s) := by
  unfold handle_boolop
  apply tame_toRes
  apply excTame_pop _ _ (tameS_refl s)
  intro b s1 _ t1
  dsimp only
  apply excTame_pop _ _ t1
  intro a s2 _ t2
  dsimp only
  exact tameS_push _ _ _ t2

/-- Tameness of `handle_not`. -/
lemma handle_not_tame (s : VMState) : tame s (handle_not s) := by
  unfold handle_not
  apply tame_toRes
  apply excTame_pop _ _ (tameS_refl s)
  intro v s1 _ t1
  dsimp only
  apply excTame_asInt _ _ _ t1
  intro vi
  dsimp only
  exact tameS_push _ _ _ t1

/-- Tameness of `handle_neg`. -/
lemma handle_neg_tame (s : VMState) : tame s (handle_neg s) := by
  unfold handle_neg
  apply tame_toRes
  apply excTame_pop _ _ (tameS_refl s)
  intro v s1 _ t1
  dsimp only
  apply excTame_asInt _ _ _ t1
  intro vi
  dsimp only
  exact tameS_push _ _ _ t1

/-- Tameness of `handle_assert`. -/
lemma handle_assert_tame (s : VMState) : tame s (handle_assert s) := by
  unfold handle_assert
  apply tame_toRes
  apply excTame_pop _ _ (tameS_refl s)
  intro v s1 _ t1
  dsimp only
  split
  · exact t1
  · exact t1

/-- Tameness of `handle_div`. -/
lemma handle_div_tame (s : VMState) : tame s (handle_div s) := by
  unfold handle_div
  simp only [bind, Except.bind]
  cases h1 : pop1 s with
  | error p =>
      obtain ⟨e, s1⟩ := p
      dsimp only
      exact (pop1_tame s).2 e s1 h1
  | ok pr =>
      obtain ⟨b, s1⟩ := pr
      dsimp only
      have t1 := (pop1_tame s).1 b s1 h1
      cases h2 : asIntE s1 b with
      | error p =>
          obtain ⟨e, s2⟩ := p
          cases (asIntE_tame s1 b).2 e s2 h2
          dsimp only
          exact t1
      | ok pr2 =>
          obtain ⟨bi, s2⟩ := pr2
          cases (asIntE_tame s1 b).1 bi s2 h2
          dsimp only
          split
          · exact t1
          · cases h3 : pop1 s1 with
            | error p =>
                obtain ⟨e, s3⟩ := p
                dsimp only
                exact tameS_trans _ _ _ t1 ((pop1_tame s1).2 e s3 h3)
            | ok pr3 =>
                obtain ⟨a, s3⟩ := pr3
                dsimp only
                have t3 := tameS_trans _ _ _ t1 ((pop1_tame s1).1 a s3 h3)
                cases h4 : asIntE s3 a with
                | error p =>
                    obtain ⟨e, s4⟩ := p
                    cases (asIntE_tame s3 a).2 e s4 h4
                    dsimp only
                    exact t3
                | ok pr4 =>
                    obtain ⟨ai, s4⟩ := pr4
                    cases (asIntE_tame s3 a).1 ai s4 h4
                    dsimp only
                    split
                    · trivial
                    · exact tameS_push _ _ _ t3

/-- Tameness of `handle_mod`. -/
lemma handle_mod_tame (s : VMState) : tame s (handle_mod s) := by
  unfold handle_mod
  simp only [bind, Except.bind]
  cases h1 : pop1 s with
  | error p =>
      obtain ⟨e, s1⟩ := p
      dsimp only
      exact (pop1_tame s).2 e s1 h1
  | ok pr =>
      obtain ⟨b, s1⟩ := pr
      dsimp only
      have t1 := (pop1_tame s).1 b s1 h1
      cases h2 : asIntE s1 b with
      | error p =>
          obtain ⟨e, s2⟩ := p
          cases (asIntE_tame s1 b).2 e s2 h2
          dsimp only
          exact t1
      | ok pr2 =>
          obtain ⟨bi, s2⟩ := pr2
          cases (asIntE_tame s1 b).1 bi s2 h2
          dsimp only
          split
          · exact t1
          · cases h3 : pop1 s1 with
            | error p =>
                obtain ⟨e, s3⟩ := p
                dsimp only
                exact tameS_trans _ _ _ t1 ((pop1_tame s1).2 e s3 h3)
            | ok pr3 =>
                obtain ⟨a, s3⟩ := pr3
                dsimp only
                have t3 := tameS_trans _ _ _ t1 ((pop1_tame s1).1 a s3 h3)
                cases h4 : asIntE s3 a with
                | error p =>
                    obtain ⟨e, s4⟩ := p
                    cases (asIntE_tame s3 a).2 e s4 h4
                    dsimp only
                    exact t3
                | ok pr4 =>
                    obtain ⟨ai, s4⟩ := pr4
                    cases (asIntE_tame s3 a).1 ai s4 h4
                    dsimp only
                    split
                    · trivial
                    · exact tameS_push _ _ _ t3

/-- Tameness of `handle_add` (the list branch rewrites one list cell in
place; the frozen store is untouched in every branch). -/
lemma handle_add_tame (s : VMState) : tame s (handle_add s) := by
  unfold handle_add
  cases h1 : pop1 s with
  | error p =>
      obtain ⟨e, s1⟩ := p
      dsimp only
      exact (pop1_tame s).2 e s1 h1
  | ok pr =>
      obtain ⟨b, s1⟩ := pr
      dsimp only
      have t1 := (pop1_tame s).1 b s1 h1
      cases h2 : pop1 s1 with
      | error p =>
          obtain ⟨e, s2⟩ := p
          dsimp only
          exact tameS_trans _ _ _ t1 ((pop1_tame s1).2 e s2 h2)
      | ok pr2 =>
          obtain ⟨a, s2⟩ := pr2
          dsimp only
          have t2 := tameS_trans _ _ _ t1 ((pop1_tame s1).1 a s2 h2)
          split
          · exact tameS_push _ _ _ t2
          · exact tameS_push _ _ _ t2
          · exact tameS_push _ _ _ t2
          · split
            · trivial
            · exact tameS_push _ _ _ (tameS_trans _ _ _ t2
                (tameS_stack_heap _ _ _ ⟨[], (List.append_nil _).symm⟩))
          · apply tame_toRes
            apply excTame_asInt _ _ _ t2
            intro ai
            dsimp only
            apply excTame_asInt _ _ _ t2
            intro bi
            dsimp only
            exact tameS_push _ _ _ t2

/-- Tameness of `handle_index`. -/
lemma handle_index_tame (s : VMState) : tame s (handle_index s) := by
  unfold handle_index
  apply tame_toRes
  apply excTame_pop _ _ (tameS_refl s)
  intro idx s1 _ t1
  dsimp only
  apply excTame_pop _ _ t1
  intro base s2 _ t2
  dsimp only
  repeat' split
  all_goals first
    | exact t2
    | exact tameS_push _ _ _ t2

/-- Tameness of `handle_slice` (successful list slices allocate a fresh
cell; the frozen store never shrinks). -/
lemma handle_slice_tame (s : VMState) : tame s (handle_slice s) := by
  unfold handle_slice
  apply tame_toRes
  apply excTame_pop _ _ (tameS_refl s)
  intro endv s1 _ t1
  dsimp only
  apply excTame_pop _ _ t1
  intro startv s2 _ t2
  dsimp only
  apply excTame_pop _ _ t2
  intro base s3 _ t3
  dsimp only
  apply excTame_asInt _ _ _ t3
  intro sti
  dsimp only
  simp only [bind, Except.bind]
  split
  · split
    · exact t3
    · split
      · repeat' split
        all_goals first
          | exact t3
          | exact tameS_push _ _ _ (tameS_trans _ _ _ t3
              (tameS_stack_heap _ _ _ ⟨[], (List.append_nil _).symm⟩))
      · cases h4 : asIntE s3 endv with
        | error p =>
            obtain ⟨e, s4⟩ := p
            cases (asIntE_tame s3 endv).2 e s4 h4
            try dsimp only
            exact t3
        | ok pr4 =>
            obtain ⟨en, s4⟩ := pr4
            cases (asIntE_tame s3 endv).1 en s4 h4
            try dsimp only
            repeat' split
            all_goals first
              | exact t3
              | exact tameS_push _ _ _ (tameS_trans _ _ _ t3
                  (tameS_stack_heap _ _ _ ⟨[], (List.append_nil _).symm⟩))
  · split
    · exact t3
    · split
      · repeat' split
        all_goals first
          | exact t3
          | exact tameS_push _ _ _ t3
      · cases h4 : asIntE s3 endv with
        | error p =>
            obtain ⟨e, s4⟩ := p
            cases (asIntE_tame s3 endv).2 e s4 h4
            try dsimp only
            exact t3
        | ok pr4 =>
            obtain ⟨en, s4⟩ := pr4
            cases (asIntE_tame s3 endv).1 en s4 h4
            try dsimp only
            repeat' split
            all_goals first
              | exact t3
              | exact tameS_push _ _ _ t3
  · exact tameS_push _ _ _ t3

/-- Tameness of `handle_store_index`. -/
lemma handle_store_index_tame (s : VMState) : tame s (handle_store_index s) := by
  unfold handle_store_index
  repeat' split
  all_goals first
    | trivial
    | exact tameS_stack _ _
    | exact tameS_refl _
    | exact tameS_stack_heap _ _ _ ⟨[], (List.append_nil _).symm⟩

/-- Tameness of `handle_store_attr`. -/
lemma handle_store_attr_tame (attr : String) (s : VMState) :
    tame s (handle_store_attr attr s) := by
  unfold handle_store_attr
  repeat' split
  all_goals first
    | trivial
    | exact tameS_stack _ _
    | exact tameS_refl _
    | exact tameS_stack_heap _ _ _ ⟨[], (List.append_nil _).symm⟩

/-- Tameness of `handle_attr`. -/
lemma handle_attr_tame (attr : String) (s : VMState) :
    tame s (handle_attr attr s) := by
  unfold handle_attr
  apply tame_toRes
  apply excTame_pop _ _ (tameS_refl s)
  intro base s1 _ t1
  dsimp only
  repeat' split
  all_goals first
    | exact t1
    | exact tameS_push _ _ _ t1

/-- Tameness of `handle_build_list`. -/
lemma handle_build_list_tame (n : Nat) (s : VMState) :
    tame s (handle_build_list n s) := by
  unfold handle_build_list
  apply tame_toRes
  apply excTame_popN _ _ _ (tameS_refl s)
  intro vs s1 _ t1
  dsimp only
  exact tameS_push _ _ _ (tameS_trans _ _ _ t1
    (tameS_stack_heap _ _ _ ⟨[], (List.append_nil _).symm⟩))

/-- The dict-building pop loop only touches the stack. -/
lemma buildDictLoop_tame : ∀ (n : Nat) (s : VMState) (m : Env),
    (∀ mm s1, buildDictLoop n s m = .ok (mm, s1) → tameS s s1) ∧
    (∀ p s1, buildDictLoop n s m = .error (p, s1) → tameS s s1) := by
  intro n
  induction n with
  | zero =>
      intro s m
      exact ⟨fun mm s1 h => by cases h; exact tameS_refl _,
             fun p s1 h => by cases h⟩
  | succ n ih =>
      intro s m
      constructor <;> intro a s1 h <;>
        simp only [buildDictLoop, bind, Except.bind] at h
      · cases h1 : pop1 s with
        | error p => rw [h1] at h; cases h
        | ok pr =>
            rw [h1] at h; dsimp only at h
            cases h2 : pop1 pr.2 with
            | error p => rw [h2] at h; cases h
            | ok pr2 =>
                rw [h2] at h; dsimp only at h
                have t2 := tameS_trans _ _ _
                  ((pop1_tame s).1 pr.1 pr.2 h1)
                  ((pop1_tame pr.2).1 pr2.1 pr2.2 h2)
                exact tameS_trans _ _ _ t2 ((ih pr2.2 _).1 a s1 h)
      · cases h1 : pop1 s with
        | error p =>
            rw [h1] at h; dsimp only at h
            cases h
            exact (pop1_tame s).2 a s1 h1
        | ok pr =>
            rw [h1] at h; dsimp only at h
            cases h2 : pop1 pr.2 with
            | error p =>
                rw [h2] at h; dsimp only at h
                cases h
                exact tameS_trans _ _ _ ((pop1_tame s).1 pr.1 pr.2 h1)
                  ((pop1_tame pr.2).2 a s1 h2)
            | ok pr2 =>
                rw [h2] at h; dsimp only at h
                have t2 := tameS_trans _ _ _
                  ((pop1_tame s).1 pr.1 pr.2 h1)
                  ((pop1_tame pr.2).1 pr2.1 pr2.2 h2)
                exact tameS_trans _ _ _ t2 ((ih pr2.2 _).2 a s1 h)

/-- Tameness of `handle_build_dict`. -/
lemma handle_build_dict_tame (n : Nat) (s : VMState) :
    tame s (handle_build_dict n s) := by
  unfold handle_build_dict
  apply tame_toRes
  simp only [bind, Except.bind]
  cases h1 : buildDictLoop n s [] with
  | error p =>
      obtain ⟨e, s1⟩ := p
      dsimp only
      exact (buildDictLoop_tame n s []).2 e s1 h1
  | ok pr =>
      obtain ⟨m, s1⟩ := pr
      dsimp only
      exact tameS_push _ _ _ (tameS_trans _ _ _
        ((buildDictLoop_tame n s []).1 m s1 h1)
        (tameS_stack_heap _ _ _ ⟨[], (List.append_nil _).symm⟩))

/-- Frozen-store component of tameness. -/
lemma tameS_frozens {s s1 : VMState} (h : tameS s s1) :
    ∃ ext, s1.heap.frozens = s.heap.frozens ++ ext :=
  h.2.2.2.2.2.2.2.2

/-- Frame-stack components of tameness. -/
lemma tameS_stacks {s s1 : VMState} (h : tameS s s1) :
    s1.envStack = s.envStack ∧ s1.retStack = s.retStack ∧
    s1.blockStack = s.blockStack :=
  ⟨h.2.2.1, h.2.2.2.1, h.2.2.2.2.2.1⟩

/-- The parameter-binding pop loop only touches the stack. -/
lemma bindParams_tame : ∀ (ps : List String) (acc : Env) (s : VMState),
    (∀ env1 s1, bindParams ps acc s = .ok (env1, s1) → tameS s s1) ∧
    (∀ p s1, bindParams ps acc s = .error (p, s1) → tameS s s1) := by
  intro ps
  induction ps with
  | nil =>
      intro acc s
      exact ⟨fun env1 s1 h => by cases h; exact tameS_refl _,
             fun p s1 h => by cases h⟩
  | cons hd t ih =>
      intro acc s
      constructor <;> intro a s1 h <;>
        simp only [bindParams, bind, Except.bind] at h
      · cases h1 : pop1 s with
        | error p => rw [h1] at h; cases h
        | ok pr =>
            rw [h1] at h; dsimp only at h
            exact tameS_trans _ _ _ ((pop1_tame s).1 pr.1 pr.2 h1)
              ((ih _ pr.2).1 a s1 h)
      · cases h1 : pop1 s with
        | error p =>
            rw [h1] at h; dsimp only at h
            cases h
            exact (pop1_tame s).2 a s1 h1
        | ok pr =>
            rw [h1] at h; dsimp only at h
            exact tameS_trans _ _ _ ((pop1_tame s).1 pr.1 pr.2 h1)
              ((ih _ pr.2).2 a s1 h)

/-- A builtin result only ever extends the frozen store. -/
def BResFrozens (fz : List Env) : BRes → Prop
  | .ok _ h1 _ => ∃ ext, h1.frozens = fz ++ ext
  | _ => True

/-- The builtin body preserves the frozen store whenever the meta
recursion does (the only heap writes are the `freeze` allocation and the
fresh list cell of a binary `file_read`). -/
lemma callBuiltinF_frozens (h : Heap) (w : World)
    (rec : String → List Value → Env → Env → BRes)
    (name : String) (args : List Value) (env globals : Env)
    (hrec : ∀ n a e g, BResFrozens h.frozens (rec n a e g)) :
    BResFrozens h.frozens (callBuiltinF h w rec name args env globals) := by
  unfold callBuiltinF
  by_cases h1 : name = "chr"
  · rw [if_pos h1]
    repeat' (first | split | dsimp only)
    all_goals first | trivial | exact ⟨[], (List.append_nil _).symm⟩
  rw [if_neg h1]
  by_cases h2 : name = "ascii"
  · rw [if_pos h2]
    repeat' (first | split | dsimp only)
    all_goals first | trivial | exact ⟨[], (List.append_nil _).symm⟩
  rw [if_neg h2]
  by_cases h3 : name = "hex"
  · rw [if_pos h3]
    repeat' (first | split | dsimp only)
    all_goals first | trivial | exact ⟨[], (List.append_nil _).symm⟩
  rw [if_neg h3]
  by_cases h4 : name = "binary"
  · rw [if_pos h4]
    repeat' (first | split | dsimp only)
    all_goals first | trivial | exact ⟨[], (List.append_nil _).symm⟩
  rw [if_neg h4]
  by_cases h5 : name = "length"
  · rw [if_pos h5]
    repeat' (first | split | dsimp only)
    all_goals first | trivial | exact ⟨[], (List.append_nil _).symm⟩
  rw [if_neg h5]
  by_cases h6 : name = "freeze"
  · rw [if_pos h6]
    repeat' split
    all_goals first
      | trivial
      | exact ⟨[], (List.append_nil _).symm⟩
      | exact ⟨[_], rfl⟩
  rw [if_neg h6]
  by_cases h7 : name = "panic"
  · rw [if_pos h7]
    repeat' split
    all_goals trivial
  rw [if_neg h7]
  by_cases h8 : name = "raise"
  · rw [if_pos h8]
    repeat' split
    all_goals trivial
  rw [if_neg h8]
  by_cases h9 : name = "read_file"
  · rw [if_pos h9]
    repeat' (first | split | dsimp only)
    all_goals first | trivial | exact ⟨[], (List.append_nil _).symm⟩
  rw [if_neg h9]
  by_cases h10 : name = "file_open"
  · rw [if_pos h10]
    repeat' (first | split | dsimp only)
    all_goals first | trivial | exact ⟨[], (List.append_nil _).symm⟩
  rw [if_neg h10]
  by_cases h11 : name = "file_read"
  · rw [if_pos h11]
    repeat' (first | split | dsimp only)
    all_goals first | trivial | exact ⟨[], (List.append_nil _).symm⟩
  rw [if_neg h11]
  by_cases h12 : name = "file_write"
  · rw [if_pos h12]
    repeat' (first | split | dsimp only)
    all_goals first | trivial | exact ⟨[], (List.append_nil _).symm⟩
  rw [if_neg h12]
  by_cases h13 : name = "file_close"
  · rw [if_pos h13]
    repeat' (first | split | dsimp only)
    all_goals first | trivial | exact ⟨[], (List.append_nil _).symm⟩
  rw [if_neg h13]
  by_cases h14 : name = "file_exists"
  · rw [if_pos h14]
    repeat' (first | split | dsimp only)
    all_goals first | trivial | exact ⟨[], (List.append_nil _).symm⟩
  rw [if_neg h14]
  by_cases h15 : name = "call_builtin"
  · rw [if_pos h15]
    repeat' split
    all_goals first | trivial | apply hrec
  rw [if_neg h15]
  trivial

/-- The builtin dispatcher preserves the frozen store at every fuel. -/
lemma call_builtin_frozens (h : Heap) (w : World) :
    ∀ (fuel : Nat) (name : String) (args : List Value) (env globals : Env),
      BResFrozens h.frozens (call_builtin h w fuel name args env globals) := by
  intro fuel
  induction fuel with
  | zero =>
      intro name args env globals
      apply callBuiltinF_frozens
      intro n a e g
      trivial
  | succ f ih =>
      intro name args env globals
      exact callBuiltinF_frozens h w _ name args env globals
        (fun n a e g => ih n a e g)

/-- Indexing survives appending on the right. -/
lemma get?_append_some {α : Type} : ∀ (l ext : List α) (r : Nat) (c : α),
    l.get? r = some c → (l ++ ext).get? r = some c := by
  intro l ext
  induction l with
  | nil => intro r c h; simp at h
  | cons hd t ih =>
      intro r c h
      cases r with
      | zero => simpa using h
      | succ n => simpa using ih n c (by simpa using h)

/-- A tame handler result, lifted to the driver interface, only extends
the frozen store in both outcome states. -/
lemma stepFrozens_of_tame {s : VMState} {r : Res} (ht : tame s r) :
    (∀ s1 adv, wrapRes r = .ok s1 adv →
        ∃ ext, s1.heap.frozens = s.heap.frozens ++ ext) ∧
    (∀ e s1, wrapRes r = .err e s1 →
        ∃ ext, s1.heap.frozens = s.heap.frozens ++ ext) := by
  cases r with
  | ok s2 =>
      refine ⟨fun s1 adv h => ?_, fun e s1 h => StepRes.noConfusion h⟩
      cases h
      exact tameS_frozens ht
  | err e2 s2 =>
      refine ⟨fun s1 adv h => StepRes.noConfusion h, fun e s1 h => ?_⟩
      cases h
      exact tameS_frozens ht
  | crashed =>
      exact ⟨fun s1 adv h => StepRes.noConfusion h,
             fun e s1 h => StepRes.noConfusion h⟩

/-- Every instruction only ever extends the frozen-dict store, in the
success state as well as in the state at an error. -/
lemma execInstr_frozens (ctx : Ctx) (i : Instr) (s : VMState) :
    (∀ s1 adv, execInstr ctx i s = .ok s1 adv →
        ∃ ext, s1.heap.frozens = s.heap.frozens ++ ext) ∧
    (∀ e s1, execInstr ctx i s = .err e s1 →
        ∃ ext, s1.heap.frozens = s.heap.frozens ++ ext) := by
  cases i with
  | Add => exact stepFrozens_of_tame (handle_add_tame s)
  | Sub => exact stepFrozens_of_tame (handle_sub_tame s)
  | Mul => exact stepFrozens_of_tame (handle_mul_tame s)
  | Div => exact stepFrozens_of_tame (handle_div_tame s)
  | Mod => exact stepFrozens_of_tame (handle_mod_tame s)
  | Eq => exact stepFrozens_of_tame (handle_eq_tame s)
  | Ne => exact stepFrozens_of_tame (handle_ne_tame s)
  | Lt => exact stepFrozens_of_tame (handle_cmp_tame _ _ s)
  | Le => exact stepFrozens_of_tame (handle_cmp_tame _ _ s)
  | Gt => exact stepFrozens_of_tame (handle_cmp_tame _ _ s)
  | Ge => exact stepFrozens_of_tame (handle_cmp_tame _ _ s)
  | BAnd => exact stepFrozens_of_tame (handle_bits_tame _ s)
  | BOr => exact stepFrozens_of_tame (handle_bits_tame _ s)
  | BXor => exact stepFrozens_of_tame (handle_bits_tame _ s)
  | Shl => exact stepFrozens_of_tame (handle_bits_tame _ s)
  | Shr => exact stepFrozens_of_tame (handle_bits_tame _ s)
  | And => exact stepFrozens_of_tame (handle_boolop_tame _ s)
  | Or => exact stepFrozens_of_tame (handle_boolop_tame _ s)
  | Not => exact stepFrozens_of_tame (handle_not_tame s)
  | Neg => exact stepFrozens_of_tame (handle_neg_tame s)
  | Index => exact stepFrozens_of_tame (handle_index_tame s)
  | Slice => exact stepFrozens_of_tame (handle_slice_tame s)
  | BuildList n => exact stepFrozens_of_tame (handle_build_list_tame n s)
  | BuildDict n => exact stepFrozens_of_tame (handle_build_dict_tame n s)
  | StoreIndex => exact stepFrozens_of_tame (handle_store_index_tame s)
  | Attr attr => exact stepFrozens_of_tame (handle_attr_tame attr s)
  | StoreAttr attr => exact stepFrozens_of_tame (handle_store_attr_tame attr s)
  | Assert => exact stepFrozens_of_tame (handle_assert_tame s)
  | PushInt v =>
      exact ⟨fun s1 adv h => by cases h; exact ⟨[], (List.append_nil _).symm⟩,
             fun e s1 h => by cases h⟩
  | PushStr str =>
      exact ⟨fun s1 adv h => by cases h; exact ⟨[], (List.append_nil _).symm⟩,
             fun e s1 h => by cases h⟩
  | PushBool b =>
      exact ⟨fun s1 adv h => by cases h; exact ⟨[], (List.append_nil _).symm⟩,
             fun e s1 h => by cases h⟩
  | Jump target =>
      exact ⟨fun s1 adv h => by cases h; exact ⟨[], (List.append_nil _).symm⟩,
             fun e s1 h => by cases h⟩
  | Halt =>
      exact ⟨fun s1 adv h => by cases h; exact ⟨[], (List.append_nil _).symm⟩,
             fun e s1 h => by cases h⟩
  | Pop =>
      exact ⟨fun s1 adv h => by cases h; exact ⟨[], (List.append_nil _).symm⟩,
             fun e s1 h => by cases h⟩
  | PushNone =>
      exact ⟨fun s1 adv h => by cases h; exact ⟨[], (List.append_nil _).symm⟩,
             fun e s1 h => by cases h⟩
  | SetupExcept target =>
      exact ⟨fun s1 adv h => by cases h; exact ⟨[], (List.append_nil _).symm⟩,
             fun e s1 h => by cases h⟩
  | PopBlock =>
      exact ⟨fun s1 adv h => by cases h; exact ⟨[], (List.append_nil _).symm⟩,
             fun e s1 h => by cases h⟩
  | Load name =>
      constructor <;> intro a b h <;> simp only [execInstr] at h
      · cases he : assocLookup s.env name with
        | some v =>
            rw [he] at h; dsimp only at h; cases h
            exact ⟨[], (List.append_nil _).symm⟩
        | none =>
            rw [he] at h; dsimp only at h
            cases hg : assocLookup s.globals name with
            | some v =>
                rw [hg] at h; dsimp only at h; cases h
                exact ⟨[], (List.append_nil _).symm⟩
            | none =>
                rw [hg] at h; dsimp only at h; cases h
                exact ⟨[], (List.append_nil _).symm⟩
      · cases he : assocLookup s.env name with
        | some v => rw [he] at h; dsimp only at h; cases h
        | none =>
            rw [he] at h; dsimp only at h
            cases hg : assocLookup s.globals name with
            | some v => rw [hg] at h; dsimp only at h; cases h
            | none => rw [hg] at h; dsimp only at h; cases h
  | Store name =>
      constructor <;> intro a b h <;> simp only [execInstr] at h
      · cases hs : s.stack with
        | nil =>
            rw [hs] at h; dsimp only at h; cases h
            exact ⟨[], (List.append_nil _).symm⟩
        | cons v rest =>
            rw [hs] at h; dsimp only at h
            split_ifs at h <;> cases h <;>
              exact ⟨[], (List.append_nil _).symm⟩
      · cases hs : s.stack with
        | nil => rw [hs] at h; dsimp only at h; cases h
        | cons v rest =>
            rw [hs] at h; dsimp only at h
            split_ifs at h <;> cases h
  | Emit =>
      constructor <;> intro a b h <;> simp only [execInstr] at h
      · cases hs : s.stack with
        | nil =>
            rw [hs] at h; dsimp only at h; cases h
            exact ⟨[], (List.append_nil _).symm⟩
        | cons v rest =>
            rw [hs] at h; dsimp only at h; cases h
            exact ⟨[], (List.append_nil _).symm⟩
      · cases hs : s.stack with
        | nil => rw [hs] at h; dsimp only at h; cases h
        | cons v rest => rw [hs] at h; dsimp only at h; cases h
  | JumpIfFalse target =>
      constructor <;> intro a b h <;> simp only [execInstr] at h
      · cases hp : pop1 s with
        | error p => rw [hp] at h; dsimp only at h; cases h
        | ok pr =>
            rw [hp] at h; dsimp only at h
            obtain ⟨ext, hf⟩ :=
              tameS_frozens ((pop1_tame s).1 pr.1 pr.2 (by rw [hp]))
            split at h <;> cases h <;> exact ⟨ext, hf⟩
      · cases hp : pop1 s with
        | error p =>
            rw [hp] at h; dsimp only at h; cases h
            exact tameS_frozens ((pop1_tame s).2 p.1 p.2 (by rw [hp]))
        | ok pr => rw [hp] at h; dsimp only at h; split at h <;> cases h
  | Ret =>
      constructor <;> intro a b h <;> simp only [execInstr, handle_ret] at h
      · cases hr : s.retStack with
        | nil => rw [hr] at h; dsimp only at h; cases h
        | cons rpc rrest =>
            rw [hr] at h
            cases he : s.envStack with
            | nil => rw [he] at h; dsimp only at h; cases h
            | cons e2 erest =>
                rw [he] at h; dsimp only at h
                cases hs : s.stack with
                | nil =>
                    rw [hs] at h; dsimp only at h; cases h
                    exact ⟨[], (List.append_nil _).symm⟩
                | cons v r =>
                    rw [hs] at h; dsimp only at h; cases h
                    exact ⟨[], (List.append_nil _).symm⟩
      · cases hr : s.retStack with
        | nil => rw [hr] at h; dsimp only at h; cases h
        | cons rpc rrest =>
            rw [hr] at h
            cases he : s.envStack with
            | nil => rw [he] at h; dsimp only at h; cases h
            | cons e2 erest =>
                rw [he] at h; dsimp only at h
                cases hs : s.stack with
                | nil => rw [hs] at h; dsimp only at h; cases h
                | cons v r => rw [hs] at h; dsimp only at h; cases h
  | Raise kind =>
      constructor <;> intro a b h <;> simp only [execInstr, handle_raise] at h
      · cases hs : s.stack with
        | nil => rw [hs] at h; dsimp only at h; cases h
        | cons v rest => rw [hs] at h; dsimp only at h; cases h
      · cases hs : s.stack with
        | nil =>
            rw [hs] at h; dsimp only at h; cases h
            exact ⟨[], (List.append_nil _).symm⟩
        | cons v rest =>
            rw [hs] at h; dsimp only at h; cases h
            exact ⟨[], (List.append_nil _).symm⟩
  | Call name =>
      constructor <;> intro a b h <;>
        simp only [execInstr, handle_call] at h
      · cases hl : assocLookup ctx.funcs name with
        | none => rw [hl] at h; dsimp only at h; cases h
        | some func =>
            rw [hl] at h; dsimp only at h
            cases h2 : bindParams func.params.reverse [] s with
            | error p => rw [h2] at h; dsimp only at h; cases h
            | ok pr =>
                rw [h2] at h; dsimp only at h
                cases h
                obtain ⟨ext, hf⟩ := tameS_frozens
                  ((bindParams_tame _ _ _).1 pr.1 pr.2 (by rw [h2]))
                exact ⟨ext, hf⟩
      · cases hl : assocLookup ctx.funcs name with
        | none =>
            rw [hl] at h; dsimp only at h; cases h
            exact ⟨[], (List.append_nil _).symm⟩
        | some func =>
            rw [hl] at h; dsimp only at h
            cases h2 : bindParams func.params.reverse [] s with
            | error p =>
                rw [h2] at h; dsimp only at h; cases h
                exact tameS_frozens
                  ((bindParams_tame _ _ _).2 p.1 p.2 (by rw [h2]))
            | ok pr => rw [h2] at h; dsimp only at h; cases h
  | TailCall name =>
      constructor <;> intro a b h <;>
        simp only [execInstr, handle_tail_call] at h
      · cases hl : assocLookup ctx.funcs name with
        | none => rw [hl] at h; dsimp only at h; cases h
        | some func =>
            rw [hl] at h; dsimp only at h
            cases h2 : bindParams func.params.reverse [] s with
            | error p => rw [h2] at h; dsimp only at h; cases h
            | ok pr =>
                rw [h2] at h; dsimp only at h
                cases h
                obtain ⟨ext, hf⟩ := tameS_frozens
                  ((bindParams_tame _ _ _).1 pr.1 pr.2 (by rw [h2]))
                exact ⟨ext, hf⟩
      · cases hl : assocLookup ctx.funcs name with
        | none =>
            rw [hl] at h; dsimp only at h; cases h
            exact ⟨[], (List.append_nil _).symm⟩
        | some func =>
            rw [hl] at h; dsimp only at h
            cases h2 : bindParams func.params.reverse [] s with
            | error p =>
                rw [h2] at h; dsimp only at h; cases h
                exact tameS_frozens
                  ((bindParams_tame _ _ _).2 p.1 p.2 (by rw [h2]))
            | ok pr => rw [h2] at h; dsimp only at h; cases h
  | CallValue argc =>
      constructor <;> intro a b h <;>
        simp only [execInstr, handle_call_value] at h
      · cases h1 : popN argc s with
        | error p => rw [h1] at h; dsimp only at h; cases h
        | ok pr =>
            rw [h1] at h; dsimp only at h
            cases h2 : pop1 pr.2 with
            | error q => rw [h2] at h; dsimp only at h; cases h
            | ok qr =>
                rw [h2] at h; dsimp only at h
                have t1 : tameS s pr.2 :=
                  (popN_tame argc s).1 pr.1 pr.2 (by rw [h1])
                have t2 : tameS pr.2 qr.2 :=
                  (pop1_tame pr.2).1 qr.1 qr.2 (by rw [h2])
                have t3 : tameS s qr.2 := tameS_trans _ _ _ t1 t2
                obtain ⟨ext, hf⟩ := tameS_frozens t3
                repeat' split at h
                all_goals cases h
                all_goals exact ⟨ext, hf⟩
      · cases h1 : popN argc s with
        | error p =>
            rw [h1] at h; dsimp only at h; cases h
            exact tameS_frozens ((popN_tame argc s).2 p.1 p.2 (by rw [h1]))
        | ok pr =>
            rw [h1] at h; dsimp only at h
            cases h2 : pop1 pr.2 with
            | error q =>
                rw [h2] at h; dsimp only at h; cases h
                have t1 : tameS s pr.2 :=
                  (popN_tame argc s).1 pr.1 pr.2 (by rw [h1])
                have t2 : tameS pr.2 q.2 :=
                  (pop1_tame pr.2).2 q.1 q.2 (by rw [h2])
                exact tameS_frozens (tameS_trans _ _ _ t1 t2)
            | ok qr =>
                rw [h2] at h; dsimp only at h
                have t1 : tameS s pr.2 :=
                  (popN_tame argc s).1 pr.1 pr.2 (by rw [h1])
                have t2 : tameS pr.2 qr.2 :=
                  (pop1_tame pr.2).1 qr.1 qr.2 (by rw [h2])
                have t3 : tameS s qr.2 := tameS_trans _ _ _ t1 t2
                obtain ⟨ext, hf⟩ := tameS_frozens t3
                repeat' split at h
                all_goals cases h
                all_goals exact ⟨ext, hf⟩
  | CallBuiltin name argc =>
      constructor <;> intro a b h <;>
        simp only [execInstr, handle_call_builtin] at h
      · cases h1 : popN argc s with
        | error p => rw [h1] at h; dsimp only at h; cases h
        | ok pr =>
            rw [h1] at h; dsimp only at h
            obtain ⟨ext1, hf1⟩ :=
              tameS_frozens ((popN_tame argc s).1 pr.1 pr.2 (by rw [h1]))
            cases h2 : call_builtin pr.2.heap pr.2.world
                (pr.2.heap.lists.length + 1) name pr.1.reverse
                pr.2.env pr.2.globals with
            | ok v hh ww =>
                rw [h2] at h; dsimp only at h; cases h
                have hb := call_builtin_frozens pr.2.heap pr.2.world
                  (pr.2.heap.lists.length + 1) name pr.1.reverse
                  pr.2.env pr.2.globals
                rw [h2] at hb
                obtain ⟨ext2, hf2⟩ := hb
                refine ⟨ext1 ++ ext2, ?_⟩
                show hh.frozens = s.heap.frozens ++ (ext1 ++ ext2)
                rw [hf2, hf1, List.append_assoc]
            | err e => rw [h2] at h; dsimp only at h; cases h
            | crashed => rw [h2] at h; dsimp only at h; cases h
      · cases h1 : popN argc s with
        | error p =>
            rw [h1] at h; dsimp only at h; cases h
            exact tameS_frozens ((popN_tame argc s).2 p.1 p.2 (by rw [h1]))
        | ok pr =>
            rw [h1] at h; dsimp only at h
            have hfr :=
              tameS_frozens ((popN_tame argc s).1 pr.1 pr.2 (by rw [h1]))
            cases h2 : call_builtin pr.2.heap pr.2.world
                (pr.2.heap.lists.length + 1) name pr.1.reverse
                pr.2.env pr.2.globals with
            | ok v hh ww => rw [h2] at h; dsimp only at h; cases h
            | err e =>
                rw [h2] at h; dsimp only at h; cases h
                exact hfr
            | crashed => rw [h2] at h; dsimp only at h; cases h

/-- The unwinder never touches the heap. -/
lemma unwind_heap (e : RuntimeError) (s : VMState) :
    ∀ s1, unwind e s = some s1 → s1.heap = s.heap := by
  intro s1 h
  unfold unwind at h
  cases hb : s.blockStack with
  | nil => rw [hb] at h; cases h
  | cons b bs =>
      rw [hb] at h
      dsimp only at h
      cases h
      rfl

/-- C2: a `FrozenDict` is never mutated. `StoreIndex` and `StoreAttr`
with a frozen-dict base operand fail with `FrozenWriteError` (consuming
their operands), and every frozen cell\x27s contents survive every
instruction unchanged — in the success state, in the state at an error,
and across a full driver iteration including exception unwinding. -/
theorem C2_frozen_dict_immutable (ctx : Ctx) (i : Instr) (s : VMState) :
    (∀ val idx r rest, s.stack = val :: idx :: .frozenDict r :: rest →
        execInstr ctx .StoreIndex s =
          .err .frozenWriteError { s with stack := rest }) ∧
    (∀ attr val r rest, s.stack = val :: .frozenDict r :: rest →
        execInstr ctx (.StoreAttr attr) s =
          .err .frozenWriteError { s with stack := rest }) ∧
    (∀ r cell, s.heap.frozens.get? r = some cell →
        (∀ s1 adv, execInstr ctx i s = .ok s1 adv →
            s1.heap.frozens.get? r = some cell) ∧
        (∀ e s1, execInstr ctx i s = .err e s1 →
            s1.heap.frozens.get? r = some cell) ∧
        (∀ s1, driverStep ctx s = .next s1 →
            s1.heap.frozens.get? r = some cell)) := by
  refine ⟨?_, ?_, ?_⟩
  · intro val idx r rest hs
    cases idx <;> simp [execInstr, handle_store_index, hs, wrapRes]
  · intro attr val r rest hs
    simp [execInstr, handle_store_attr, hs, wrapRes]
  · intro r cell hcell
    refine ⟨?_, ?_, ?_⟩
    · intro s1 adv h
      obtain ⟨ext, hf⟩ := (execInstr_frozens ctx i s).1 s1 adv h
      rw [hf]
      exact get?_append_some _ _ _ _ hcell
    · intro e s1 h
      obtain ⟨ext, hf⟩ := (execInstr_frozens ctx i s).2 e s1 h
      rw [hf]
      exact get?_append_some _ _ _ _ hcell
    · intro s1 h
      unfold driverStep at h
      cases hc : ctx.code.get? s.pc with
      | none => rw [hc] at h; cases h
      | some i2 =>
          rw [hc] at h; dsimp only at h
          cases he : execInstr ctx i2 s with
          | ok s2 adv =>
              rw [he] at h; dsimp only at h
              obtain ⟨ext, hf⟩ := (execInstr_frozens ctx i2 s).1 s2 adv he
              cases h
              cases adv
              · rw [if_neg Bool.false_ne_true, hf]
                exact get?_append_some _ _ _ _ hcell
              · rw [if_pos rfl]
                dsimp only
                rw [hf]
                exact get?_append_some _ _ _ _ hcell
          | err e s2 =>
              rw [he] at h; dsimp only at h
              obtain ⟨ext, hf⟩ := (execInstr_frozens ctx i2 s).2 e s2 he
              cases hu : unwind e s2 with
              | none => rw [hu] at h; cases h
              | some s3 =>
                  rw [hu] at h; dsimp only at h; cases h
                  rw [unwind_heap e s2 _ hu, hf]
                  exact get?_append_some _ _ _ _ hcell
          | crashed => rw [he] at h; cases h

/-- Closed instance of `C2_frozen_dict_immutable`: both frozen writes
fail on a concrete frozen dict, and a `PushInt` leaves its cell intact. -/
theorem C2_witness :
    execInstr ctx0 .StoreIndex stFz =
      .err .frozenWriteError { stFz with stack := [] } ∧
    execInstr ctx0 (.StoreAttr "a") stFa =
      .err .frozenWriteError { stFa with stack := [] } ∧
    (push stFz (.int 5)).heap.frozens.get? 0 = some [("k", Value.int 1)] :=
  ⟨(C2_frozen_dict_immutable ctx0 .Halt stFz).1 (.int 1) (.int 0) 0 [] rfl,
   (C2_frozen_dict_immutable ctx0 .Halt stFa).2.1 "a" (.int 1) 0 [] rfl,
   ((C2_frozen_dict_immutable ctx0 (.PushInt 5) stFz).2.2 0
       [("k", Value.int 1)] rfl).1 (push stFz (.int 5)) true rfl⟩

/-- The frame-stack invariant of `vm.rs::run`: the return stack and the
environment stack have equal depth, and every protected block on the
block stack captured equal depths for the two. -/
def stacksAligned (s : VMState) : Prop :=
  s.retStack.length = s.envStack.length ∧
  ∀ b ∈ s.blockStack, b.retDepth = b.envDepth

/-- Tame transitions (stack/heap only) preserve the invariant. -/
lemma stacksAligned_of_tameS {s s1 : VMState} (h : tameS s s1)
    (hi : stacksAligned s) : stacksAligned s1 := by
  obtain ⟨he, hr, hb⟩ := tameS_stacks h
  constructor
  · rw [hr, he]
    exact hi.1
  · rw [hb]
    exact hi.2

/-- Tame handler results preserve the invariant in both outcome states. -/
lemma stepAligned_of_tame {s : VMState} {r : Res} (ht : tame s r)
    (hi : stacksAligned s) :
    (∀ s1 adv, wrapRes r = .ok s1 adv → stacksAligned s1) ∧
    (∀ e s1, wrapRes r = .err e s1 → stacksAligned s1) := by
  cases r with
  | ok s2 =>
      refine ⟨fun s1 adv h => ?_, fun e s1 h => StepRes.noConfusion h⟩
      cases h
      exact stacksAligned_of_tameS ht hi
  | err e2 s2 =>
      refine ⟨fun s1 adv h => StepRes.noConfusion h, fun e s1 h => ?_⟩
      cases h
      exact stacksAligned_of_tameS ht hi
  | crashed =>
      exact ⟨fun s1 adv h => StepRes.noConfusion h,
             fun e s1 h => StepRes.noConfusion h⟩

/-- Lengths after the unwinder\x27s frame-popping loop: both outputs sit at
`min (depth of the env stack) depth`, given the stacks start equal. -/
lemma popFrames_len : ∀ (es : List Env) (env : Env) (rs : List Nat) (d : Nat),
    rs.length = es.length →
    (popFrames env es rs d).2.1.length = min es.length d ∧
    (popFrames env es rs d).2.2.length = min es.length d := by
  intro es
  induction es with
  | nil =>
      intro env rs d hlen
      constructor
      · show ([] : List Env).length = min ([] : List Env).length d
        simp
      · show rs.length = min ([] : List Env).length d
        simp [hlen]
  | cons e2 rest ih =>
      intro env rs d hlen
      unfold popFrames
      by_cases hd : rest.length + 1 > d
      · rw [if_pos hd]
        have hlen2 : rs.tail.length = rest.length := by
          rw [List.length_tail, hlen, List.length_cons]
          omega
        have h2 := ih e2 rs.tail d hlen2
        constructor
        · rw [h2.1, List.length_cons]
          omega
        · rw [h2.2, List.length_cons]
          omega
      · rw [if_neg hd]
        constructor
        · show (e2 :: rest).length = min (e2 :: rest).length d
          rw [List.length_cons]
          omega
        · show rs.length = min (e2 :: rest).length d
          rw [hlen, List.length_cons]
          omega

/-- `Vec::truncate` length. -/
lemma vecTruncate_length {α : Type} (l : List α) (n : Nat) :
    (vecTruncate l n).length = min n l.length := by
  unfold vecTruncate
  rw [List.length_drop]
  omega

/-- Unwinding into a handler truncates both frame stacks to the popped
block\x27s captured depth and preserves the invariant. -/
lemma unwind_lens (e : RuntimeError) (s : VMState) (hi : stacksAligned s)
    (b : Block) (bs : List Block) (hb : s.blockStack = b :: bs) :
    ∀ s1, unwind e s = some s1 →
      s1.envStack.length = min s.envStack.length b.envDepth ∧
      s1.retStack.length = min s.envStack.length b.envDepth ∧
      s1.blockStack = bs := by
  intro s1 h
  unfold unwind at h
  rw [hb] at h
  dsimp only at h
  cases h
  have hbd : b.retDepth = b.envDepth :=
    hi.2 b (by rw [hb]; exact List.mem_cons_self b bs)
  have hpf := popFrames_len s.envStack s.env s.retStack b.envDepth hi.1
  refine ⟨hpf.1, ?_, rfl⟩
  show (vecTruncate (popFrames s.env s.envStack s.retStack b.envDepth).2.2
      b.retDepth).length = min s.envStack.length b.envDepth
  rw [vecTruncate_length, hpf.2, hbd]
  omega

/-- The unwinder preserves the invariant. -/
lemma unwind_aligned (e : RuntimeError) (s : VMState) (hi : stacksAligned s) :
    ∀ s1, unwind e s = some s1 → stacksAligned s1 := by
  intro s1 h
  cases hb : s.blockStack with
  | nil => unfold unwind at h; rw [hb] at h; cases h
  | cons b bs =>
      obtain ⟨h1, h2, h3⟩ := unwind_lens e s hi b bs hb s1 h
      constructor
      · rw [h2, h1]
      · intro b2 hb2
        rw [h3] at hb2
        exact hi.2 b2 (by rw [hb]; exact List.mem_cons_of_mem b hb2)

/-- Every instruction preserves the frame-stack invariant, in the
success state as well as in the state at an error. -/
lemma execInstr_aligned (ctx : Ctx) (i : Instr) (s : VMState)
    (hi : stacksAligned s) :
    (∀ s1 adv, execInstr ctx i s = .ok s1 adv → stacksAligned s1) ∧
    (∀ e s1, execInstr ctx i s = .err e s1 → stacksAligned s1) := by
  cases i with
  | Add => exact stepAligned_of_tame (handle_add_tame s) hi
  | Sub => exact stepAligned_of_tame (handle_sub_tame s) hi
  | Mul => exact stepAligned_of_tame (handle_mul_tame s) hi
  | Div => exact stepAligned_of_tame (handle_div_tame s) hi
  | Mod => exact stepAligned_of_tame (handle_mod_tame s) hi
  | Eq => exact stepAligned_of_tame (handle_eq_tame s) hi
  | Ne => exact stepAligned_of_tame (handle_ne_tame s) hi
  | Lt => exact stepAligned_of_tame (handle_cmp_tame _ _ s) hi
  | Le => exact stepAligned_of_tame (handle_cmp_tame _ _ s) hi
  | Gt => exact stepAligned_of_tame (handle_cmp_tame _ _ s) hi
  | Ge => exact stepAligned_of_tame (handle_cmp_tame _ _ s) hi
  | BAnd => exact stepAligned_of_tame (handle_bits_tame _ s) hi
  | BOr => exact stepAligned_of_tame (handle_bits_tame _ s) hi
  | BXor => exact stepAligned_of_tame (handle_bits_tame _ s) hi
  | Shl => exact stepAligned_of_tame (handle_bits_tame _ s) hi
  | Shr => exact stepAligned_of_tame (handle_bits_tame _ s) hi
  | And => exact stepAligned_of_tame (handle_boolop_tame _ s) hi
  | Or => exact stepAligned_of_tame (handle_boolop_tame _ s) hi
  | Not => exact stepAligned_of_tame (handle_not_tame s) hi
  | Neg => exact stepAligned_of_tame (handle_neg_tame s) hi
  | Index => exact stepAligned_of_tame (handle_index_tame s) hi
  | Slice => exact stepAligned_of_tame (handle_slice_tame s) hi
  | BuildList n => exact stepAligned_of_tame (handle_build_list_tame n s) hi
  | BuildDict n => exact stepAligned_of_tame (handle_build_dict_tame n s) hi
  | StoreIndex => exact stepAligned_of_tame (handle_store_index_tame s) hi
  | Attr attr => exact stepAligned_of_tame (handle_attr_tame attr s) hi
  | StoreAttr attr => exact stepAligned_of_tame (handle_store_attr_tame attr s) hi
  | Assert => exact stepAligned_of_tame (handle_assert_tame s) hi
  | PushInt v =>
      exact ⟨fun s1 adv h => by cases h; exact hi,
             fun e s1 h => StepRes.noConfusion h⟩
  | PushStr str =>
      exact ⟨fun s1 adv h => by cases h; exact hi,
             fun e s1 h => StepRes.noConfusion h⟩
  | PushBool b =>
      exact ⟨fun s1 adv h => by cases h; exact hi,
             fun e s1 h => StepRes.noConfusion h⟩
  | Jump target =>
      exact ⟨fun s1 adv h => by cases h; exact hi,
             fun e s1 h => StepRes.noConfusion h⟩
  | Halt =>
      exact ⟨fun s1 adv h => by cases h; exact hi,
             fun e s1 h => StepRes.noConfusion h⟩
  | Pop =>
      exact ⟨fun s1 adv h => by cases h; exact hi,
             fun e s1 h => StepRes.noConfusion h⟩
  | PushNone =>
      exact ⟨fun s1 adv h => by cases h; exact hi,
             fun e s1 h => StepRes.noConfusion h⟩
  | PopBlock =>
      refine ⟨fun s1 adv h => ?_, fun e s1 h => StepRes.noConfusion h⟩
      cases h
      exact ⟨hi.1, fun b2 hb2 => hi.2 b2 (List.mem_of_mem_tail hb2)⟩
  | SetupExcept target =>
      refine ⟨fun s1 adv h => ?_, fun e s1 h => StepRes.noConfusion h⟩
      cases h
      refine ⟨hi.1, fun b2 hb2 => ?_⟩
      rcases List.mem_cons.mp hb2 with h | h
      · rw [h]
        exact hi.1
      · exact hi.2 b2 h
  | Load name =>
      constructor <;> intro a b h <;> simp only [execInstr] at h
      · cases he : assocLookup s.env name with
        | some v => rw [he] at h; dsimp only at h; cases h; exact hi
        | none =>
            rw [he] at h; dsimp only at h
            cases hg : assocLookup s.globals name with
            | some v => rw [hg] at h; dsimp only at h; cases h; exact hi
            | none => rw [hg] at h; dsimp only at h; cases h; exact hi
      · cases he : assocLookup s.env name with
        | some v => rw [he] at h; dsimp only at h; cases h
        | none =>
            rw [he] at h; dsimp only at h
            cases hg : assocLookup s.globals name with
            | some v => rw [hg] at h; dsimp only at h; cases h
            | none => rw [hg] at h; dsimp only at h; cases h
  | Store name =>
      constructor <;> intro a b h <;> simp only [execInstr] at h
      · cases hs : s.stack with
        | nil => rw [hs] at h; dsimp only at h; cases h; exact hi
        | cons v rest =>
            rw [hs] at h; dsimp only at h
            split_ifs at h <;> cases h <;> exact hi
      · cases hs : s.stack with
        | nil => rw [hs] at h; dsimp only at h; cases h
        | cons v rest =>
            rw [hs] at h; dsimp only at h
            split_ifs at h <;> cases h
  | Emit =>
      constructor <;> intro a b h <;> simp only [execInstr] at h
      · cases hs : s.stack with
        | nil => rw [hs] at h; dsimp only at h; cases h; exact hi
        | cons v rest => rw [hs] at h; dsimp only at h; cases h; exact hi
      · cases hs : s.stack with
        | nil => rw [hs] at h; dsimp only at h; cases h
        | cons v rest => rw [hs] at h; dsimp only at h; cases h
  | Raise kind =>
      constructor <;> intro a b h <;> simp only [execInstr, handle_raise] at h
      · cases hs : s.stack with
        | nil => rw [hs] at h; dsimp only at h; cases h
        | cons v rest => rw [hs] at h; dsimp only at h; cases h
      · cases hs : s.stack with
        | nil => rw [hs] at h; dsimp only at h; cases h; exact hi
        | cons v rest => rw [hs] at h; dsimp only at h; cases h; exact hi
  | JumpIfFalse target =>
      constructor <;> intro a b h <;> simp only [execInstr] at h
      · cases hp : pop1 s with
        | error p => rw [hp] at h; dsimp only at h; cases h
        | ok pr =>
            rw [hp] at h; dsimp only at h
            have hi2 := stacksAligned_of_tameS
              ((pop1_tame s).1 pr.1 pr.2 (by rw [hp])) hi
            split at h <;> cases h <;> exact hi2
      · cases hp : pop1 s with
        | error p =>
            rw [hp] at h; dsimp only at h; cases h
            exact stacksAligned_of_tameS
              ((pop1_tame s).2 p.1 p.2 (by rw [hp])) hi
        | ok pr => rw [hp] at h; dsimp only at h; split at h <;> cases h
  | Ret =>
      constructor <;> intro a b h <;> simp only [execInstr, handle_ret] at h
      · cases hr : s.retStack with
        | nil => rw [hr] at h; dsimp only at h; cases h
        | cons rpc rrest =>
            rw [hr] at h
            cases he : s.envStack with
            | nil => rw [he] at h; dsimp only at h; cases h
            | cons e2 erest =>
                rw [he] at h; dsimp only at h
                have h1 := hi.1
                rw [hr, he] at h1
                have h2 : rrest.length = erest.length := by
                  simpa using h1
                cases hs : s.stack with
                | nil =>
                    rw [hs] at h; dsimp only at h; cases h
                    exact ⟨h2, hi.2⟩
                | cons v r =>
                    rw [hs] at h; dsimp only at h; cases h
                    exact ⟨h2, hi.2⟩
      · cases hr : s.retStack with
        | nil => rw [hr] at h; dsimp only at h; cases h
        | cons rpc rrest =>
            rw [hr] at h
            cases he : s.envStack with
            | nil => rw [he] at h; dsimp only at h; cases h
            | cons e2 erest =>
                rw [he] at h; dsimp only at h
                cases hs : s.stack with
                | nil => rw [hs] at h; dsimp only at h; cases h
                | cons v r => rw [hs] at h; dsimp only at h; cases h
  | Call name =>
      constructor <;> intro a b h <;>
        simp only [execInstr, handle_call] at h
      · cases hl : assocLookup ctx.funcs name with
        | none => rw [hl] at h; dsimp only at h; cases h
        | some func =>
            rw [hl] at h; dsimp only at h
            cases h2 : bindParams func.params.reverse [] s with
            | error p => rw [h2] at h; dsimp only at h; cases h
            | ok pr =>
                rw [h2] at h; dsimp only at h
                cases h
                have hi2 := stacksAligned_of_tameS
                  ((bindParams_tame _ _ _).1 pr.1 pr.2 (by rw [h2])) hi
                refine ⟨?_, hi2.2⟩
                show ((pr.2.pc + 1) :: pr.2.retStack).length =
                  (pr.2.env :: pr.2.envStack).length
                rw [List.length_cons, List.length_cons, hi2.1]
      · cases hl : assocLookup ctx.funcs name with
        | none => rw [hl] at h; dsimp only at h; cases h; exact hi
        | some func =>
            rw [hl] at h; dsimp only at h
            cases h2 : bindParams func.params.reverse [] s with
            | error p =>
                rw [h2] at h; dsimp only at h; cases h
                exact stacksAligned_of_tameS
                  ((bindParams_tame _ _ _).2 p.1 p.2 (by rw [h2])) hi
            | ok pr => rw [h2] at h; dsimp only at h; cases h
  | TailCall name =>
      constructor <;> intro a b h <;>
        simp only [execInstr, handle_tail_call] at h
      · cases hl : assocLookup ctx.funcs name with
        | none => rw [hl] at h; dsimp only at h; cases h
        | some func =>
            rw [hl] at h; dsimp only at h
            cases h2 : bindParams func.params.reverse [] s with
            | error p => rw [h2] at h; dsimp only at h; cases h
            | ok pr =>
                rw [h2] at h; dsimp only at h
                cases h
                have hi2 := stacksAligned_of_tameS
                  ((bindParams_tame _ _ _).1 pr.1 pr.2 (by rw [h2])) hi
                exact ⟨hi2.1, hi2.2⟩
      · cases hl : assocLookup ctx.funcs name with
        | none => rw [hl] at h; dsimp only at h; cases h; exact hi
        | some func =>
            rw [hl] at h; dsimp only at h
            cases h2 : bindParams func.params.reverse [] s with
            | error p =>
                rw [h2] at h; dsimp only at h; cases h
                exact stacksAligned_of_tameS
                  ((bindParams_tame _ _ _).2 p.1 p.2 (by rw [h2])) hi
            | ok pr => rw [h2] at h; dsimp only at h; cases h
  | CallValue argc =>
      constructor <;> intro a b h <;>
        simp only [execInstr, handle_call_value] at h
      · cases h1 : popN argc s with
        | error p => rw [h1] at h; dsimp only at h; cases h
        | ok pr =>
            rw [h1] at h; dsimp only at h
            cases h2 : pop1 pr.2 with
            | error q => rw [h2] at h; dsimp only at h; cases h
            | ok qr =>
                rw [h2] at h; dsimp only at h
                have t1 : tameS s pr.2 :=
                  (popN_tame argc s).1 pr.1 pr.2 (by rw [h1])
                have t2 : tameS pr.2 qr.2 :=
                  (pop1_tame pr.2).1 qr.1 qr.2 (by rw [h2])
                have hi3 := stacksAligned_of_tameS
                  (tameS_trans _ _ _ t1 t2) hi
                repeat' split at h
                all_goals cases h
                all_goals
                  refine ⟨?_, hi3.2⟩
                all_goals
                  show ((qr.2.pc + 1) :: qr.2.retStack).length =
                    (qr.2.env :: qr.2.envStack).length
                all_goals rw [List.length_cons, List.length_cons, hi3.1]
      · cases h1 : popN argc s with
        | error p =>
            rw [h1] at h; dsimp only at h; cases h
            exact stacksAligned_of_tameS
              ((popN_tame argc s).2 p.1 p.2 (by rw [h1])) hi
        | ok pr =>
            rw [h1] at h; dsimp only at h
            cases h2 : pop1 pr.2 with
            | error q =>
                rw [h2] at h; dsimp only at h; cases h
                have t1 : tameS s pr.2 :=
                  (popN_tame argc s).1 pr.1 pr.2 (by rw [h1])
                have t2 : tameS pr.2 q.2 :=
                  (pop1_tame pr.2).2 q.1 q.2 (by rw [h2])
                exact stacksAligned_of_tameS (tameS_trans _ _ _ t1 t2) hi
            | ok qr =>
                rw [h2] at h; dsimp only at h
                have t1 : tameS s pr.2 :=
                  (popN_tame argc s).1 pr.1 pr.2 (by rw [h1])
                have t2 : tameS pr.2 qr.2 :=
                  (pop1_tame pr.2).1 qr.1 qr.2 (by rw [h2])
                have hi3 := stacksAligned_of_tameS
                  (tameS_trans _ _ _ t1 t2) hi
                repeat' split at h
                all_goals cases h
                all_goals exact hi3
  | CallBuiltin name argc =>
      constructor <;> intro a b h <;>
        simp only [execInstr, handle_call_builtin] at h
      · cases h1 : popN argc s with
        | error p => rw [h1] at h; dsimp only at h; cases h
        | ok pr =>
            rw [h1] at h; dsimp only at h
            have hi2 := stacksAligned_of_tameS
              ((popN_tame argc s).1 pr.1 pr.2 (by rw [h1])) hi
            cases h2 : call_builtin pr.2.heap pr.2.world
                (pr.2.heap.lists.length + 1) name pr.1.reverse
                pr.2.env pr.2.globals with
            | ok v hh ww =>
                rw [h2] at h; dsimp only at h; cases h
                exact hi2
            | err e => rw [h2] at h; dsimp only at h; cases h
            | crashed => rw [h2] at h; dsimp only at h; cases h
      · cases h1 : popN argc s with
        | error p =>
            rw [h1] at h; dsimp only at h; cases h
            exact stacksAligned_of_tameS
              ((popN_tame argc s).2 p.1 p.2 (by rw [h1])) hi
        | ok pr =>
            rw [h1] at h; dsimp only at h
            have hi2 := stacksAligned_of_tameS
              ((popN_tame argc s).1 pr.1 pr.2 (by rw [h1])) hi
            cases h2 : call_builtin pr.2.heap pr.2.world
                (pr.2.heap.lists.length + 1) name pr.1.reverse
                pr.2.env pr.2.globals with
            | ok v hh ww => rw [h2] at h; dsimp only at h; cases h
            | err e =>
                rw [h2] at h; dsimp only at h; cases h
                exact hi2
            | crashed => rw [h2] at h; dsimp only at h; cases h

/-- State with one pushed frame on each stack, for exercising `Ret`. -/
def stRet : VMState :=
  { stateOn heap0 [] with envStack := [[]], retStack := [7] }

/-- C4: the return stack and the environment stack move in lockstep.
From any state satisfying the invariant (equal stack depths, every
protected block capturing equal depths) — which the initial state does —
every instruction preserves it in both the success and the error state,
and so does a full driver iteration; moreover `Call` pushes one frame
onto each stack, `TailCall` pushes onto neither, `Ret` pops one from
each, and unwinding truncates both stacks to the depths captured in the
popped block. -/
theorem C4_ret_env_stacks_parallel (ctx : Ctx) (s : VMState)
    (hi : stacksAligned s) :
    (∀ args w, stacksAligned (initState args w)) ∧
    (∀ i s1 adv, execInstr ctx i s = .ok s1 adv → stacksAligned s1) ∧
    (∀ i e s1, execInstr ctx i s = .err e s1 → stacksAligned s1) ∧
    (∀ s1, driverStep ctx s = .next s1 → stacksAligned s1) ∧
    (∀ name s1 adv, execInstr ctx (.Call name) s = .ok s1 adv →
        s1.envStack.length = s.envStack.length + 1 ∧
        s1.retStack.length = s.retStack.length + 1) ∧
    (∀ name s1 adv, execInstr ctx (.TailCall name) s = .ok s1 adv →
        s1.envStack = s.envStack ∧ s1.retStack = s.retStack) ∧
    (∀ s1 adv, execInstr ctx .Ret s = .ok s1 adv →
        s1.envStack.length + 1 = s.envStack.length ∧
        s1.retStack.length + 1 = s.retStack.length) ∧
    (∀ e b bs s1, s.blockStack = b :: bs → unwind e s = some s1 →
        s1.envStack.length = min s.envStack.length b.envDepth ∧
        s1.retStack.length = min s.envStack.length b.envDepth ∧
        s1.blockStack = bs) := by
  refine ⟨?_, ?_, ?_, ?_, ?_, ?_, ?_, ?_⟩
  · intro args w
    exact ⟨rfl, fun b hb => absurd hb (List.not_mem_nil b)⟩
  · intro i s1 adv h
    exact (execInstr_aligned ctx i s hi).1 s1 adv h
  · intro i e s1 h
    exact (execInstr_aligned ctx i s hi).2 e s1 h
  · intro s1 h
    unfold driverStep at h
    cases hc : ctx.code.get? s.pc with
    | none => rw [hc] at h; cases h
    | some i2 =>
        rw [hc] at h; dsimp only at h
        cases he : execInstr ctx i2 s with
        | ok s2 adv =>
            rw [he] at h; dsimp only at h
            have ha := (execInstr_aligned ctx i2 s hi).1 s2 adv he
            cases h
            cases adv
            · rw [if_neg Bool.false_ne_true]
              exact ha
            · rw [if_pos rfl]
              exact ⟨ha.1, ha.2⟩
        | err e s2 =>
            rw [he] at h; dsimp only at h
            have ha := (execInstr_aligned ctx i2 s hi).2 e s2 he
            cases hu : unwind e s2 with
            | none => rw [hu] at h; cases h
            | some s3 =>
                rw [hu] at h; dsimp only at h; cases h
                exact unwind_aligned e s2 ha _ hu
        | crashed => rw [he] at h; cases h
  · intro name s1 adv h
    simp only [execInstr, handle_call] at h
    cases hl : assocLookup ctx.funcs name with
    | none => rw [hl] at h; dsimp only at h; cases h
    | some func =>
        rw [hl] at h; dsimp only at h
        cases h2 : bindParams func.params.reverse [] s with
        | error p => rw [h2] at h; dsimp only at h; cases h
        | ok pr =>
            rw [h2] at h; dsimp only at h
            cases h
            obtain ⟨hes, hrs, -⟩ := tameS_stacks
              ((bindParams_tame _ _ _).1 pr.1 pr.2 (by rw [h2]))
            refine ⟨?_, ?_⟩
            · show (pr.2.env :: pr.2.envStack).length = s.envStack.length + 1
              rw [List.length_cons, hes]
            · show ((pr.2.pc + 1) :: pr.2.retStack).length =
                s.retStack.length + 1
              rw [List.length_cons, hrs]
  · intro name s1 adv h
    simp only [execInstr, handle_tail_call] at h
    cases hl : assocLookup ctx.funcs name with
    | none => rw [hl] at h; dsimp only at h; cases h
    | some func =>
        rw [hl] at h; dsimp only at h
        cases h2 : bindParams func.params.reverse [] s with
        | error p => rw [h2] at h; dsimp only at h; cases h
        | ok pr =>
            rw [h2] at h; dsimp only at h
            cases h
            obtain ⟨hes, hrs, -⟩ := tameS_stacks
              ((bindParams_tame _ _ _).1 pr.1 pr.2 (by rw [h2]))
            exact ⟨hes, hrs⟩
  · intro s1 adv h
    simp only [execInstr, handle_ret] at h
    cases hr : s.retStack with
    | nil => rw [hr] at h; dsimp only at h; cases h
    | cons rpc rrest =>
        rw [hr] at h
        cases he : s.envStack with
        | nil => rw [he] at h; dsimp only at h; cases h
        | cons e2 erest =>
            rw [he] at h; dsimp only at h
            cases hs : s.stack with
            | nil =>
                rw [hs] at h; dsimp only at h; cases h
                exact ⟨rfl, rfl⟩
            | cons v r =>
                rw [hs] at h; dsimp only at h; cases h
                exact ⟨rfl, rfl⟩
  · intro e b bs s1 hb hu
    exact unwind_lens e s hi b bs hb s1 hu

/-- The state `Ret` produces from `stRet`. -/
def stRetAfter : VMState := { stRet with stack := [Value.int 0], pc := 7, env := [], envStack := [], retStack := [] }

/-- Closed instance of `C4_ret_env_stacks_parallel`: a push preserves
the invariant, and `Ret` from one pushed frame pops both stacks to
depth zero. -/
theorem C4_witness :
    stacksAligned (push (stateOn heap0 []) (.int 5)) ∧
    stRetAfter.envStack.length + 1 = stRet.envStack.length :=
  ⟨(C4_ret_env_stacks_parallel ctx0 (stateOn heap0 [])
      ⟨rfl, by simp [stateOn]⟩).2.1 (.PushInt 5)
      (push (stateOn heap0 []) (.int 5)) true rfl,
   ((C4_ret_env_stacks_parallel ctx0 stRet
      ⟨rfl, by simp [stRet, stateOn]⟩).2.2.2.2.2.2.1
      stRetAfter false rfl).1⟩

end OMG
